import Mathlib

/-!
Verification of the soft-body physics engine of the `soft` repository.

The simulation core lives in `src/world.rs`; this file gives a shallow
embedding of its data model and operations over the real numbers
(`f64` arithmetic is modelled by `ℝ`, `usize` by `ℕ`, vectors by lists,
in-place mutation by explicit state passing, fallible operations by a
result component paired with the post-state), and proves the stated
properties about them.

The repository modules `vec2.rs` and `consts.rs` are referenced by the
sources but are not among them; the trivial 2D-vector primitives and the
arena-extent constants they provide are modelled from the specification
(and from the standalone prototype `main.rs`, which fixes the arena to
1920 × 1080), as marked on the individual definitions below.
-/

namespace Soft

noncomputable section

/-- Modelled from the spec: the 2D vector arithmetic primitives of the absent
module `vec2` (§1 treats them as a trivial external library): a plain pair of
real coordinates. -/
@[ext]
structure Vec2 where
  x : ℝ
  y : ℝ

/-- Modelled from the spec: `Vec2::new`. -/
def Vec2.new (x y : ℝ) : Vec2 := ⟨x, y⟩

/-- Modelled from the spec: `Vec2::null`, the zero vector. -/
def Vec2.null : Vec2 := ⟨0, 0⟩

/-- Modelled from the spec: coordinatewise vector addition. -/
instance : Add Vec2 := ⟨fun a b => ⟨a.x + b.x, a.y + b.y⟩⟩

/-- Modelled from the spec: coordinatewise vector subtraction. -/
instance : Sub Vec2 := ⟨fun a b => ⟨a.x - b.x, a.y - b.y⟩⟩

/-- Modelled from the spec: scalar multiplication `f64 * Vec2`. -/
instance : HMul ℝ Vec2 Vec2 := ⟨fun s v => ⟨s * v.x, s * v.y⟩⟩

/-- Modelled from the spec: scalar multiplication `Vec2 * f64`. -/
instance : HMul Vec2 ℝ Vec2 := ⟨fun v s => ⟨v.x * s, v.y * s⟩⟩

/-- Modelled from the spec: division of a vector by a scalar. -/
instance : HDiv Vec2 ℝ Vec2 := ⟨fun v s => ⟨v.x / s, v.y / s⟩⟩

/-- Modelled from the spec: the dot product. -/
def Vec2.dot (a b : Vec2) : ℝ := a.x * b.x + a.y * b.y

/-- Modelled from the spec: `Vec2::len_sqr`, the squared Euclidean norm. -/
def Vec2.len_sqr (v : Vec2) : ℝ := v.x * v.x + v.y * v.y

/-- Modelled from the spec: `Vec2::len`, the Euclidean norm. -/
def Vec2.len (v : Vec2) : ℝ := Real.sqrt v.len_sqr

@[simp] theorem Vec2.add_x (a b : Vec2) : (a + b).x = a.x + b.x := rfl

@[simp] theorem Vec2.add_y (a b : Vec2) : (a + b).y = a.y + b.y := rfl

@[simp] theorem Vec2.sub_x (a b : Vec2) : (a - b).x = a.x - b.x := rfl

@[simp] theorem Vec2.sub_y (a b : Vec2) : (a - b).y = a.y - b.y := rfl

@[simp] theorem Vec2.smul_x (s : ℝ) (v : Vec2) : (s * v).x = s * v.x := rfl

@[simp] theorem Vec2.smul_y (s : ℝ) (v : Vec2) : (s * v).y = s * v.y := rfl

@[simp] theorem Vec2.muls_x (s : ℝ) (v : Vec2) : (v * s).x = v.x * s := rfl

@[simp] theorem Vec2.muls_y (s : ℝ) (v : Vec2) : (v * s).y = v.y * s := rfl

@[simp] theorem Vec2.div_x (s : ℝ) (v : Vec2) : (v / s).x = v.x / s := rfl

@[simp] theorem Vec2.div_y (s : ℝ) (v : Vec2) : (v / s).y = v.y / s := rfl

@[simp] theorem Vec2.new_x (x y : ℝ) : (Vec2.new x y).x = x := rfl

@[simp] theorem Vec2.new_y (x y : ℝ) : (Vec2.new x y).y = y := rfl

@[simp] theorem Vec2.null_x : Vec2.null.x = 0 := rfl

@[simp] theorem Vec2.null_y : Vec2.null.y = 0 := rfl

theorem Vec2.len_sqr_nonneg (v : Vec2) : 0 ≤ v.len_sqr := by
  have hx : 0 ≤ v.x * v.x := mul_self_nonneg _
  have hy : 0 ≤ v.y * v.y := mul_self_nonneg _
  simpa [Vec2.len_sqr] using add_nonneg hx hy

theorem Vec2.len_nonneg (v : Vec2) : 0 ≤ v.len := Real.sqrt_nonneg _

/-- Modelled from the spec: the arena extent from the absent module `consts`;
the standalone prototype `main.rs` fixes `WIDTH = 1920.0`. -/
def WIDTH : ℝ := 1920

/-- Modelled from the spec: the arena extent from the absent module `consts`;
the standalone prototype `main.rs` fixes `HEIGHT = 1080.0`. -/
def HEIGHT : ℝ := 1080

/-- A point mass (`struct Particle` in `world.rs`). -/
@[ext]
structure Particle where
  pos : Vec2
  vel : Vec2
  acc : Vec2

instance : Inhabited Particle := ⟨⟨Vec2.null, Vec2.null, Vec2.null⟩⟩

/-- `Particle::R` (`world.rs`). -/
def Particle.R : ℝ := 7.25

/-- `Particle::SPACING` (`world.rs`). -/
def Particle.SPACING : ℝ := 21.0

/-- `Particle::DIAG_SQR = 2.0 * SQR!(Particle::SPACING)` (`world.rs`). -/
def Particle.DIAG_SQR : ℝ := 2.0 * (Particle.SPACING * Particle.SPACING)

/-- `Particle::new` (`world.rs`). -/
def Particle.new (x y : ℝ) : Particle :=
  { pos := Vec2.new x y, vel := Vec2.null, acc := Vec2.null }

/-- `Particle::collide` (`world.rs` lines 35–53): mutation of `self` and
`other` is modelled by returning the updated pair. -/
def Particle.collide (self other : Particle) : Particle × Particle :=
  let diff := other.pos - self.pos
  let diff_len_sqr := diff.len_sqr
  if (2.0 * Particle.R) * (2.0 * Particle.R) ≥ diff_len_sqr then
    let diff_len := Real.sqrt diff_len_sqr
    let offset := (0.5 * (2.0 * Particle.R - diff_len)) * (diff / diff_len)
    let self1 : Particle := { self with pos := self.pos - offset }
    let other1 : Particle := { other with pos := other.pos + offset }
    let diff_norm := (other1.pos - self1.pos) / (2.0 * Particle.R)
    let vel_offset := (self1.vel.dot diff_norm - other1.vel.dot diff_norm) * diff_norm
    ({ self1 with vel := self1.vel - vel_offset },
     { other1 with vel := other1.vel + vel_offset })
  else (self, other)

/-- `Particle::integrate` (`world.rs` lines 55–60). -/
def Particle.integrate (self : Particle) (dt : ℝ) : Particle :=
  { pos := self.pos + (self.vel * dt + ((0.5 : ℝ) * self.acc) * dt * dt),
    vel := self.vel + self.acc * dt,
    acc := Vec2.null }

/-- A damped distance constraint (`struct Spring` in `world.rs`). -/
structure Spring where
  a : ℕ
  b : ℕ
  l0 : ℝ

instance : Inhabited Spring := ⟨⟨0, 0, 0⟩⟩

/-- `Spring::KS` (`world.rs`). -/
def Spring.KS : ℝ := 6000.0

/-- `Spring::KD` (`world.rs`). -/
def Spring.KD : ℝ := 100.0

/-- `Spring::new` (`world.rs`). -/
def Spring.new (a b : ℕ) (l0 : ℝ) : Spring := ⟨a, b, l0⟩

/-- A static line-segment obstacle (`struct Edge` in `world.rs`). -/
structure Edge where
  start : Vec2
  line : Vec2
  len_sqr : ℝ

/-- `Edge::R` (`world.rs`). -/
def Edge.R : ℝ := 1.5 * Particle.R

/-- `Edge::FRICTION` (`world.rs`). -/
def Edge.FRICTION : ℝ := 0.990

/-- `Edge::new` (`world.rs`). -/
def Edge.new (s e : Vec2) : Edge :=
  { start := s, line := e - s, len_sqr := (e - s).len_sqr }

/-- The closest point of the segment to a position, as computed by
`world.rs` lines 119–122: the projection parameter
`t = line.dot(line2).clamp(0, len_sqr) / len_sqr` clamps to the segment
extent. -/
def Edge.closestPoint (self : Edge) (pos : Vec2) : Vec2 :=
  let line2 := pos - self.start
  let t := (min (max (self.line.dot line2) 0) self.len_sqr) / self.len_sqr
  self.start + t * self.line

/-- `Edge::collide` (`world.rs` lines 118–136): mutation of the particle is
modelled by returning the updated particle; the closest-point computation of
lines 119–122 is the named definition above. -/
def Edge.collide (self : Edge) (particle : Particle) : Particle :=
  let closest_point := self.closestPoint particle.pos
  let diff := particle.pos - closest_point
  let diff_len_sqr := diff.len_sqr
  if diff_len_sqr ≤ (Particle.R + Edge.R) * (Particle.R + Edge.R) then
    let diff_len := Real.sqrt diff_len_sqr
    let particle1 : Particle :=
      { particle with pos := particle.pos + ((Particle.R + Edge.R) - diff_len) * (diff / diff_len) }
    let tangent := (particle1.pos - closest_point) / (Edge.R + Particle.R)
    let dp := particle1.vel.dot tangent
    { particle1 with vel := (particle1.vel - (dp * tangent) * (1.50 : ℝ)) * Edge.FRICTION }
  else particle

/-- A body descriptor (`struct ObjectDescriptor` in `world.rs`). -/
structure ObjectDescriptor where
  particle_start : ℕ
  particle_end : ℕ
  spring_start : ℕ
  spring_end : ℕ
  boundary_start : ℕ
  boundary_end : ℕ

/-- `ObjectDescriptor::new` (`world.rs`). -/
def ObjectDescriptor.new (ps pe ss se bs be : ℕ) : ObjectDescriptor :=
  ⟨ps, pe, ss, se, bs, be⟩

/-- The simulation state (`struct World` in `world.rs`). -/
structure World where
  particles : List Particle
  springs : List Spring
  boundaries : List ℕ
  objects : List ObjectDescriptor
  edges : List Edge
  buckets : List (List ℕ)
  dt_acc : ℝ

/-- `World::DT` (`world.rs`). -/
def World.DT : ℝ := 0.00125

/-- `World::GRID = HEIGHT / (Particle::R * 2.0)` (`world.rs`). -/
def World.GRID : ℝ := HEIGHT / (Particle.R * 2.0)

/-- `World::GRAVITY` (`world.rs`). -/
def World.GRAVITY : Vec2 := Vec2.new 0.0 350.0

/-- Rust's saturating `f64 as usize` cast on non-NaN input: truncation for
non-negative values, zero for negative values. -/
def f64toUsize (r : ℝ) : ℕ := ⌊r⌋.toNat

/-- `Self::GRID as usize`, the grid resolution used for cell coordinates. -/
def gridN : ℕ := f64toUsize World.GRID

/-- `SQR!(Self::GRID) as usize`, the number of spatial-hash buckets. -/
def gridSq : ℕ := f64toUsize (World.GRID * World.GRID)

/-- `World::new` (`world.rs`): empty collections, buckets resized to the grid. -/
def World.new : World :=
  { particles := [], springs := [], boundaries := [], objects := [], edges := [],
    buckets := List.replicate gridSq [], dt_acc := 0 }

/-- `World::can_spawn_rect` (`world.rs`). -/
def World.can_spawn_rect (w h : ℕ) : Prop := 2 ≤ w ∧ 2 ≤ h

instance (w h : ℕ) : Decidable (World.can_spawn_rect w h) :=
  inferInstanceAs (Decidable (_ ∧ _))

/-- `World::can_add_edge` (`world.rs`). -/
def World.can_add_edge (s e : Vec2) : Prop := s ≠ e

instance (s e : Vec2) : Decidable (World.can_add_edge s e) := Classical.dec _

/-- The particles appended by `World::spawn_rect` (`world.rs` lines 256–261):
a `w × h` grid, column by column, spaced by `Particle::SPACING`. -/
def rectParticles (w h : ℕ) (x y : ℝ) : List Particle :=
  (List.range w).flatMap fun i =>
    (List.range h).map fun j =>
      Particle.new (↑i * Particle.SPACING + x) (↑j * Particle.SPACING + y)

/-- The springs pushed for the grid node `(i, j)` inside the spawn loop
(`world.rs` lines 263–279): the particle with flat index
`ind = p_start + i*h + j` is wired to its right, lower, lower-right and
lower-left neighbours where those exist. -/
def cellSprings (p_start w h i j : ℕ) : List Spring :=
  let ind := p_start + i * h + j
  (if i < w - 1 then [Spring.new ind (ind + h) Particle.SPACING] else []) ++
  (if j < h - 1 then [Spring.new ind (ind + 1) Particle.SPACING] else []) ++
  (if i < w - 1 ∧ j < h - 1 then [Spring.new ind (ind + h + 1) (Real.sqrt Particle.DIAG_SQR)] else []) ++
  (if 0 < i ∧ j < h - 1 then [Spring.new ind (ind - h + 1) (Real.sqrt Particle.DIAG_SQR)] else [])

/-- The springs appended by `World::spawn_rect` (`world.rs` lines 263–279). -/
def rectSprings (p_start w h : ℕ) : List Spring :=
  (List.range w).flatMap fun i =>
    (List.range h).flatMap fun j => cellSprings p_start w h i j

/-- The boundary indices appended by `World::spawn_rect`
(`world.rs` lines 285–296): the perimeter walk of the grid. -/
def rectBoundaries (p_start w h : ℕ) : List ℕ :=
  ((List.range w).map fun n => p_start + n * h) ++
  ((List.range' ((w - 1) * h + 1) (w * h - ((w - 1) * h + 1))).map fun n => p_start + n) ++
  (((List.range' 1 (w - 1 - 1)).reverse).map fun n => p_start + (n + 1) * h - 1) ++
  (((List.range' 1 (h - 1)).reverse).map fun n => p_start + n)

/-- `World::spawn_rect` (`world.rs` lines 244–308).  The `Result<(), (usize,
usize)>` return and in-place mutation are modelled by pairing the optional
error payload with the post-state; on rejection the state is returned
untouched, exactly as the early `return Err((w, h))` does. -/
def World.spawn_rect (self : World) (w h : ℕ) (x y : ℝ) : Option (ℕ × ℕ) × World :=
  if World.can_spawn_rect w h then
    let p_start := self.particles.length
    let s_start := self.springs.length
    let particles1 := self.particles ++ rectParticles w h x y
    let springs1 := self.springs ++ rectSprings p_start w h
    let b_start := self.boundaries.length
    let boundaries1 := self.boundaries ++ rectBoundaries p_start w h
    (none,
     { self with
        particles := particles1
        springs := springs1
        boundaries := boundaries1
        objects := self.objects ++
          [ObjectDescriptor.new p_start particles1.length s_start springs1.length
            b_start boundaries1.length] })
  else (some (w, h), self)

/-- `World::add_edge` (`world.rs` lines 231–237). -/
def World.add_edge (self : World) (s e : Vec2) : Option String × World :=
  if World.can_add_edge s e then
    (none, { self with edges := self.edges ++ [Edge.new s e] })
  else (some "cant add edge, length cannot be 0", self)

/-- `World::remove_last` (`world.rs` lines 445–451): pop the last body
descriptor, if any, and truncate the three collections to its range starts. -/
def World.remove_last (self : World) : World :=
  match self.objects.getLast? with
  | none => self
  | some obj =>
      { self with
          objects := self.objects.dropLast
          particles := self.particles.take obj.particle_start
          springs := self.springs.take obj.spring_start
          boundaries := self.boundaries.take obj.boundary_start }

/-- `World::clear` (`world.rs` lines 383–388). -/
def World.clear (self : World) : World :=
  { self with particles := [], springs := [], boundaries := [], objects := [] }

/-- `World::end_frame` (`world.rs` lines 379–381). -/
def World.end_frame (self : World) (dt : ℝ) : World :=
  { self with dt_acc := self.dt_acc + dt }

/-- `World::remove_edge` (`world.rs` lines 461–463). -/
def World.remove_edge (self : World) (n : ℕ) : World :=
  { self with edges := self.edges.eraseIdx n }

/-- `World::info` (`world.rs` lines 390–398). -/
def World.info (self : World) : ℕ × ℕ × ℕ × ℕ × ℕ :=
  (self.particles.length, self.springs.length, self.boundaries.length,
   self.edges.length, self.objects.length)

/-- In-place mutation of one vector slot (`particles[i] = …`): apply `f` to
the `i`-th element, leaving the list unchanged if `i` is out of range. -/
def listModify {α : Type} (f : α → α) : ℕ → List α → List α
  | _, [] => []
  | 0, a :: as => f a :: as
  | n + 1, a :: as => a :: listModify f n as

/-- The current stretched length of a spring over a particle store: the
distance between its two endpoint positions (`diff_len` in
`World::update_spring`). -/
def springStretch (ps : List Particle) (s : Spring) : ℝ :=
  ((ps.getD s.b default).pos - (ps.getD s.a default).pos).len

/-- `World::update_spring` (`world.rs` lines 476–506).  Out-of-range endpoint
indices (a panic in Rust, excluded by the body invariants) read a default
particle.  On the instability guard the error carries the stretched length
and, as in Rust, no acceleration has been written yet. -/
def update_spring (spring : Spring) (particles : List Particle) :
    Except ℝ (List Particle) :=
  let p1 := particles.getD spring.a default
  let p2 := particles.getD spring.b default
  let diff := p2.pos - p1.pos
  let diff_len := diff.len
  if diff_len > spring.l0 * 5.0 then .error diff_len
  else
    let diff_norm := diff / diff_len
    let dl := diff_len - spring.l0
    let dist_factor := if 0 ≤ dl then dl else 1.0
    let fs := dist_factor * dl * Spring.KS
    let fd := diff_norm.dot (p2.vel - p1.vel) * Spring.KD
    let f := (fs + fd) * diff_norm
    .ok (listModify (fun p => { p with acc := p.acc - f }) spring.b
          (listModify (fun p => { p with acc := p.acc + f }) spring.a particles))

/-- The spring loop of `World::update` (`world.rs` lines 321–323): springs are
updated in order; the first instability aborts the loop, and the mutations of
the springs already processed are kept (the `?` operator returns early). -/
def springPass : List Spring → List Particle → Option ℝ × List Particle
  | [], ps => (none, ps)
  | s :: rest, ps =>
      match update_spring s ps with
      | .error d => (some d, ps)
      | .ok ps1 => springPass rest ps1

/-- `World::grid_pos` (`world.rs` lines 465–470). -/
def grid_pos (particle : Particle) : ℕ × ℕ :=
  (f64toUsize ((particle.pos.x / WIDTH) * World.GRID),
   f64toUsize ((particle.pos.y / HEIGHT) * World.GRID))

/-- `World::grid_idx` (`world.rs` lines 472–474): flat bucket index, clamped
to the bucket range. -/
def grid_idx (x y : ℕ) : ℕ := min (x + y * gridN) (gridSq - 1)

/-- `self.buckets[z].push(i)`. -/
def pushBucket (bs : List (List ℕ)) (z i : ℕ) : List (List ℕ) :=
  listModify (fun b => b ++ [i]) z bs

/-- The clamped flat bucket index a particle is inserted at
(`world.rs` lines 313–317, the same quantization as `grid_pos`/`grid_idx`). -/
def insIdx (p : Particle) : ℕ := grid_idx (grid_pos p).1 (grid_pos p).2

/-- The bucket-filling loop of `World::update` (`world.rs` lines 312–319):
every particle index is pushed into the bucket of its quantized cell. -/
def buildBuckets (ps : List Particle) (bs : List (List ℕ)) : List (List ℕ) :=
  ps.enum.foldl (fun bs pr => pushBucket bs (insIdx pr.2) pr.1) bs

/-- The five bucket indices visited for a particle whose cell is `(x, y)`
(`world.rs` lines 339–355): the particle's own cell and, where the guards
allow, the four neighbour cells `(x, y-1)`, `(x-1, y-1)`, `(x-1, y)` and
`(x-1, y+1)`. -/
def stencilCells (x y : ℕ) : List ℕ :=
  [grid_idx x y] ++
  (if 0 < y then [grid_idx x (y - 1)] else []) ++
  (if 0 < y ∧ 0 < x then [grid_idx (x - 1) (y - 1)] else []) ++
  (if 0 < x then [grid_idx (x - 1) y] else []) ++
  (if 0 < x ∧ y < gridN then [grid_idx (x - 1) (y + 1)] else [])

/-- The ordered pairs the pass tests for particle `i` when its working copy
sits in cell `(x, y)`: every partner index in the five stencil buckets,
skipping `i` itself (the ghost log one iteration of the per-particle loop
appends). -/
def cellScanLog (bs : List (List ℕ)) (i x y : ℕ) : List (ℕ × ℕ) :=
  (stencilCells x y).flatMap fun z =>
    (bs.getD z []).flatMap fun j => if i ≠ j then [(i, j)] else []

/-- Whether an ordered tested pair is one of the two orientations of the
unordered pair `{a, b}`. -/
def pairMatches (a b : ℕ) (pr : ℕ × ℕ) : Bool :=
  decide ((pr.1 = a ∧ pr.2 = b) ∨ (pr.1 = b ∧ pr.2 = a))

/-- The `collide_bucket` closure of `World::update` (`world.rs` lines
331–337): collide the working copy of particle `i` against every index in one
bucket, skipping `i` itself, writing the partner back into the store.  The
third state component is a ghost log of the ordered pairs actually tested. -/
def collide_bucket (i : ℕ) (bucket : List ℕ)
    (st : Particle × List Particle × List (ℕ × ℕ)) :
    Particle × List Particle × List (ℕ × ℕ) :=
  bucket.foldl
    (fun st j =>
      if i ≠ j then
        let res := st.1.collide (st.2.1.getD j default)
        (res.1, listModify (fun _ => res.2) j st.2.1, st.2.2 ++ [(i, j)])
      else st)
    st

/-- One iteration of the per-particle loop of `World::update` (`world.rs`
lines 325–363): clone particle `i`, collide it through the five-cell stencil
of its current cell, add gravity, integrate, and store it back. -/
def particleStep (bs : List (List ℕ)) (st : List Particle × List (ℕ × ℕ))
    (i : ℕ) : List Particle × List (ℕ × ℕ) :=
  let particle := st.1.getD i default
  let c := grid_pos particle
  let st1 := (stencilCells c.1 c.2).foldl
    (fun s z => collide_bucket i (bs.getD z []) s) (particle, st.1, st.2)
  let particle1 := { st1.1 with acc := st1.1.acc + World.GRAVITY }
  let particle2 := particle1.integrate World.DT
  (listModify (fun _ => particle2) i st1.2.1, st1.2.2)

/-- The whole particle-collision/integration pass of one sub-step, together
with its ghost log of tested ordered pairs. -/
def collidePass (ps : List Particle) (bs : List (List ℕ)) :
    List Particle × List (ℕ × ℕ) :=
  (List.range ps.length).foldl (particleStep bs) (ps, [])

/-- The ordered pairs tested by one sub-step's particle-collision pass. -/
def testedPairs (ps : List Particle) (bs : List (List ℕ)) : List (ℕ × ℕ) :=
  (collidePass ps bs).2

/-- The state of the particle-collision pass after its first `k` iterations
(the prefix of the `for i in 0..len` loop). -/
def passState (ps : List Particle) (bs : List (List ℕ)) (k : ℕ) :
    List Particle × List (ℕ × ℕ) :=
  (List.range k).foldl (particleStep bs) (ps, [])

/-- A world holding one spring whose endpoints are 200 apart with rest length
21: the stretch 200 exceeds 5 × 21 = 105. -/
def wInstab : World :=
  { particles := [Particle.new 0 0, Particle.new 200 0],
    springs := [Spring.new 0 1 21.0],
    boundaries := [], objects := [], edges := [], buckets := [],
    dt_acc := World.DT }

/-- The instability world of `wInstab`, with the buckets in their normal
(resized, all empty) shape. -/
def wStale : World := { wInstab with buckets := List.replicate gridSq [] }

/-- The horizontal segment from the origin to `(10, 0)`. -/
def e0def : Edge := Edge.new (Vec2.new 0 0) (Vec2.new 10 0)

/-- A particle at exact contact distance `R + Edge::R = 145/8` above the
origin, moving horizontally. -/
def p0def : Particle :=
  { pos := Vec2.new 0 (145 / 8), vel := Vec2.new 1 0, acc := Vec2.null }

/-- A particle at the origin at rest: two copies of it occupy the same grid
cell. -/
def pC : Particle := Particle.new 0 0

/-- The buckets built by the sub-step for two coincident particles at the
origin over the normal (resized, all empty) bucket array. -/
def bC : List (List ℕ) := buildBuckets [pC, pC] (List.replicate gridSq [])

/-- The boundary/edge loop of `World::update` (`world.rs` lines 365–369). -/
def edgePass (boundaries : List ℕ) (edges : List Edge)
    (ps : List Particle) : List Particle :=
  boundaries.foldl
    (fun ps i => edges.foldl (fun ps e => listModify (fun p => e.collide p) i ps) ps)
    ps

/-- One sub-step of `World::update` (`world.rs` lines 311–374): fill the
buckets, run the spring pass (an instability aborts the sub-step, keeping the
filled buckets and the accelerations already applied), then collide/
integrate the particles, collide boundary particles with the edges, clear
every bucket and drain one `DT` from the accumulator. -/
def subStep (w : World) : Option ℝ × World :=
  let bs := buildBuckets w.particles w.buckets
  match springPass w.springs w.particles with
  | (some d, ps) => (some d, { w with buckets := bs, particles := ps })
  | (none, ps) =>
      let ps1 := (collidePass ps bs).1
      let ps2 := edgePass w.boundaries w.edges ps1
      (none,
       { w with
          particles := ps2
          buckets := bs.map fun _ => []
          dt_acc := w.dt_acc - World.DT })

theorem subStep_dt_acc {w w' : World} (h : subStep w = (none, w')) :
    w'.dt_acc = w.dt_acc - World.DT := by
  unfold subStep at h
  rcases hsp : springPass w.springs w.particles with ⟨err, ps⟩
  rw [hsp] at h
  cases err with
  | none =>
      have := congrArg (fun p => (Prod.snd p).dt_acc) h
      simpa using this.symm
  | some d => simp at h

/-- `World::update` (`world.rs` lines 310–377): run sub-steps while at least
one fixed duration is owed; a spring instability propagates out immediately. -/
def update (w : World) : Option ℝ × World :=
  if h : World.DT ≤ w.dt_acc then
    match hs : subStep w with
    | (some d, w') => (some d, w')
    | (none, w') => update w'
  else (none, w)
termination_by (⌊w.dt_acc / World.DT⌋).toNat
decreasing_by
  have hdt : w'.dt_acc = w.dt_acc - World.DT := subStep_dt_acc hs
  have hDTpos : (0 : ℝ) < World.DT := by norm_num [World.DT]
  have h1 : (1 : ℝ) ≤ w.dt_acc / World.DT := (one_le_div hDTpos).mpr h
  have hfl : ⌊w'.dt_acc / World.DT⌋ = ⌊w.dt_acc / World.DT⌋ - 1 := by
    rw [hdt, sub_div, div_self (ne_of_gt hDTpos)]
    exact Int.floor_sub_one _
  have hge : (1 : ℤ) ≤ ⌊w.dt_acc / World.DT⌋ := by
    exact_mod_cast Int.le_floor.mpr (by exact_mod_cast h1)
  rw [hfl]
  omega

/-! ## Unfolding lemmas for the driver loop -/

theorem update_no_step {w : World} (h : ¬ World.DT ≤ w.dt_acc) :
    update w = (none, w) := by
  rw [update, dif_neg h]

theorem update_err {w w' : World} {d : ℝ} (h : World.DT ≤ w.dt_acc)
    (hs : subStep w = (some d, w')) : update w = (some d, w') := by
  rw [update, dif_pos h]
  split <;> simp_all

theorem update_ok_step {w w' : World} (h : World.DT ≤ w.dt_acc)
    (hs : subStep w = (none, w')) : update w = update w' := by
  rw [update, dif_pos h]
  split <;> simp_all

/-! ## C9: rejected spawn sizes -/

/-- C9: for every `(w, h)` with `w < 2` or `h < 2` and every origin,
`spawn_rect` returns the invalid-request error carrying exactly `(w, h)` and
leaves the whole world state unchanged. -/
theorem spawn_rect_rejects_small (w h : ℕ) (x y : ℝ) (world : World)
    (hwh : w < 2 ∨ h < 2) :
    world.spawn_rect w h x y = (some (w, h), world) := by
  have hno : ¬ World.can_spawn_rect w h := by
    unfold World.can_spawn_rect; omega
  simp [World.spawn_rect, hno]

theorem spawn_rect_rejects_small_witness :
    World.new.spawn_rect 1 5 0 0 = (some (1, 5), World.new) :=
  spawn_rect_rejects_small 1 5 0 0 World.new (Or.inl (by norm_num))

/-! ## C4: LIFO body removal -/

/-- C4: from any starting state, spawning body A then body B with
`spawn_rect` and then calling `remove_last` once restores exactly the state
reached after spawning A (all fields of the world coincide, in particular all
counts and all particle positions). -/
theorem remove_last_lifo (w0 : World) (wa ha wb hb : ℕ) (xa ya xb yb : ℝ)
    (hwa : 2 ≤ wa) (hha : 2 ≤ ha) (hwb : 2 ≤ wb) (hhb : 2 ≤ hb) :
    (((w0.spawn_rect wa ha xa ya).2.spawn_rect wb hb xb yb).2).remove_last
      = (w0.spawn_rect wa ha xa ya).2 := by
  have hca : World.can_spawn_rect wa ha := ⟨hwa, hha⟩
  have hcb : World.can_spawn_rect wb hb := ⟨hwb, hhb⟩
  simp only [World.spawn_rect, hca, hcb, if_pos]
  unfold World.remove_last
  simp only [ObjectDescriptor.new, List.getLast?_concat, List.dropLast_concat,
    World.mk.injEq, and_true, true_and]
  refine ⟨?_, ?_, ?_⟩ <;> exact List.take_left' rfl

theorem remove_last_lifo_witness :
    (((World.new.spawn_rect 2 2 0 0).2.spawn_rect 3 4 100 100).2).remove_last
      = (World.new.spawn_rect 2 2 0 0).2 :=
  remove_last_lifo World.new 2 2 3 4 0 0 100 100 (by norm_num) (by norm_num)
    (by norm_num) (by norm_num)

/-! ## C10: pairwise collision conserves momentum and the midpoint -/

/-- C10: for every pair of particles, colliding or not, `Particle::collide`
preserves the sum of the two positions and the sum of the two velocities (the
offsets are equal and opposite), and leaves both accelerations unchanged. -/
theorem collide_conserves (p q : Particle) :
    (p.collide q).1.pos + (p.collide q).2.pos = p.pos + q.pos ∧
    (p.collide q).1.vel + (p.collide q).2.vel = p.vel + q.vel ∧
    (p.collide q).1.acc = p.acc ∧ (p.collide q).2.acc = q.acc := by
  unfold Particle.collide
  dsimp only
  split
  · refine ⟨?_, ?_, rfl, rfl⟩ <;> (ext <;> simp <;> ring)
  · exact ⟨rfl, rfl, rfl, rfl⟩

/-! ## C6: the accumulator loop terminates and drains in DT steps -/

/-- C6: `update` is a total function (the accumulator loop terminates for
every accumulated time); whenever it returns `Ok`, the remaining accumulator
is strictly below one sub-step duration and equals the initial accumulator
minus a whole number of `DT`-drains (one per executed sub-step). -/
theorem update_ok_drains (w : World) (h0 : 0 ≤ w.dt_acc)
    (hok : (update w).1 = none) :
    (update w).2.dt_acc < World.DT ∧
      ∃ n : ℕ, (update w).2.dt_acc = w.dt_acc - n * World.DT := by
  clear h0
  induction w using update.induct with
  | case1 w h d w' hs =>
      rw [update_err h hs] at hok
      simp at hok
  | case2 w h w' hs ih =>
      rw [update_ok_step h hs] at hok ⊢
      obtain ⟨hlt, n, hn⟩ := ih hok
      refine ⟨hlt, n + 1, ?_⟩
      have hdt : w'.dt_acc = w.dt_acc - World.DT := subStep_dt_acc hs
      rw [hn, hdt]
      push_cast
      ring
  | case3 w h =>
      rw [update_no_step h]
      exact ⟨lt_of_not_le h, 0, by simp⟩

theorem update_ok_drains_witness :
    (update World.new).2.dt_acc < World.DT ∧
      ∃ n : ℕ, (update World.new).2.dt_acc = World.new.dt_acc - n * World.DT :=
  update_ok_drains World.new (le_refl 0)
    (by rw [update_no_step (by norm_num [World.new, World.DT])])

/-! ## C2: spawn produces the documented counts and rest lengths -/

theorem sum_map_const {α : Type} (l : List α) (c : ℕ) :
    (l.map fun _ => c).sum = l.length * c := by
  induction l with
  | nil => simp
  | cons a t ih => simp only [List.map_cons, List.sum_cons, ih,
      List.length_cons]; ring

theorem sum_range_if_lt (n m c : ℕ) :
    ((List.range n).map fun j => if j < m then c else 0).sum = c * min n m := by
  induction n with
  | zero => simp
  | succ k ih =>
      rw [List.range_succ, List.map_append, List.sum_append, ih]
      rcases Nat.lt_or_ge k m with hk | hk
      · have h1 : min k m = k := by omega
        have h2 : min (k + 1) m = k + 1 := by omega
        simp only [h1, h2, hk, if_pos, List.map_cons, List.map_nil,
          List.sum_cons, List.sum_nil]
        ring
      · have h1 : min k m = m := by omega
        have h2 : min (k + 1) m = m := by omega
        simp [Nat.not_lt.mpr hk, h1, h2]

theorem sum_range_if_pos (n c : ℕ) :
    ((List.range n).map fun i => if 0 < i then c else 0).sum = c * (n - 1) := by
  induction n with
  | zero => simp
  | succ k ih =>
      rw [List.range_succ, List.map_append, List.sum_append, ih]
      cases k with
      | zero => simp
      | succ k2 =>
          simp only [Nat.succ_sub_one, List.map_cons, List.map_nil,
            List.sum_cons, List.sum_nil, Nat.zero_lt_succ, if_pos]
          ring

theorem rectParticles_length (w h : ℕ) (x y : ℝ) :
    (rectParticles w h x y).length = w * h := by
  unfold rectParticles
  rw [List.length_flatMap]
  have inner : ∀ i : ℕ,
      ((List.range h).map fun j =>
        Particle.new (↑i * Particle.SPACING + x)
          (↑j * Particle.SPACING + y)).length = h := by
    intro i
    rw [List.length_map, List.length_range]
  simp only [Function.comp_def, inner]
  rw [sum_map_const, List.length_range]

theorem rectBoundaries_length (p w h : ℕ) (hw : 2 ≤ w) (hh : 2 ≤ h) :
    (rectBoundaries p w h).length = 2 * w + 2 * h - 4 := by
  obtain ⟨w2, rfl⟩ : ∃ w2, w = w2 + 2 := ⟨w - 2, by omega⟩
  obtain ⟨h2, rfl⟩ : ∃ h2, h = h2 + 2 := ⟨h - 2, by omega⟩
  unfold rectBoundaries
  simp only [List.length_append, List.length_map, List.length_reverse,
    List.length_range, List.length_range']
  have key : (w2 + 2) * (h2 + 2) - ((w2 + 2 - 1) * (h2 + 2) + 1) = h2 + 1 := by
    have e1 : w2 + 2 - 1 = w2 + 1 := by omega
    have e2 : (w2 + 2) * (h2 + 2) = (w2 + 1) * (h2 + 2) + (h2 + 2) := by ring
    rw [e1, e2]
    omega
  rw [key]
  omega

theorem cellSprings_length (p w h i j : ℕ) :
    (cellSprings p w h i j).length
      = (if i < w - 1 then 1 else 0) + (if j < h - 1 then 1 else 0)
        + (if i < w - 1 ∧ j < h - 1 then 1 else 0)
        + (if 0 < i ∧ j < h - 1 then 1 else 0) := by
  unfold cellSprings
  simp only [List.length_append, apply_ite List.length,
    List.length_singleton, List.length_nil]

theorem innerSprings_sum (p w h i : ℕ) (hh : 1 ≤ h) :
    ((List.range h).map fun j => (cellSprings p w h i j).length).sum
      = (h - 1) + (if i < w - 1 then h + (h - 1) else 0)
        + (if 0 < i then h - 1 else 0) := by
  simp only [cellSprings_length]
  have hlt := sum_range_if_lt h (h - 1) 1
  simp only [one_mul] at hlt
  by_cases hi1 : i < w - 1 <;> by_cases hi0 : 0 < i <;>
    · simp only [hi1, hi0, if_true, if_false, true_and, false_and,
        add_zero, zero_add, List.sum_map_add, sum_map_const, hlt,
        List.length_range]
      omega

theorem rectSprings_length (p w h : ℕ) (hw : 2 ≤ w) (hh : 2 ≤ h) :
    (rectSprings p w h).length
      = (w - 1) * h + w * (h - 1) + 2 * ((w - 1) * (h - 1)) := by
  unfold rectSprings
  rw [List.length_flatMap]
  simp only [Function.comp_def, List.length_flatMap]
  have inner : ∀ i : ℕ,
      ((List.range h).map fun j => (cellSprings p w h i j).length).sum
        = (h - 1) + (if i < w - 1 then h + (h - 1) else 0)
          + (if 0 < i then h - 1 else 0) :=
    fun i => innerSprings_sum p w h i (by omega)
  simp only [inner]
  rw [List.sum_map_add, List.sum_map_add]
  rw [sum_map_const, sum_range_if_lt, sum_range_if_pos, List.length_range]
  have e4 : min w (w - 1) = w - 1 := by omega
  rw [e4]
  obtain ⟨w2, rfl⟩ : ∃ w2, w = w2 + 2 := ⟨w - 2, by omega⟩
  obtain ⟨h2, rfl⟩ : ∃ h2, h = h2 + 2 := ⟨h - 2, by omega⟩
  have ew : w2 + 2 - 1 = w2 + 1 := by omega
  have eh : h2 + 2 - 1 = h2 + 1 := by omega
  rw [ew, eh]
  ring

theorem sqrt_DIAG_SQR : Real.sqrt Particle.DIAG_SQR = Real.sqrt 2 * Particle.SPACING := by
  unfold Particle.DIAG_SQR Particle.SPACING
  rw [show (2.0 : ℝ) * (21.0 * 21.0) = 2 * 21.0 ^ 2 by norm_num]
  rw [Real.sqrt_mul (by norm_num), Real.sqrt_sq (by norm_num)]

/-- C2: for `w, h ≥ 2`, `spawn_rect` succeeds and appends exactly `w*h`
particles, `2w + 2h - 4` boundary indices and
`(w-1)*h + w*(h-1) + 2*(w-1)*(h-1)` springs, each appended spring joining a
particle to its right/lower neighbour with rest length `SPACING` or to a
diagonal-row neighbour with rest length `√2 * SPACING`; one body descriptor
recording exactly the appended ranges is pushed. -/
theorem spawn_rect_spec (w h : ℕ) (x y : ℝ) (world : World)
    (hw : 2 ≤ w) (hh : 2 ≤ h) :
    (world.spawn_rect w h x y).1 = none ∧
    (world.spawn_rect w h x y).2.particles.length = world.particles.length + w * h ∧
    (world.spawn_rect w h x y).2.boundaries.length
      = world.boundaries.length + (2 * w + 2 * h - 4) ∧
    (world.spawn_rect w h x y).2.springs.length
      = world.springs.length + ((w - 1) * h + w * (h - 1) + 2 * ((w - 1) * (h - 1))) ∧
    (world.spawn_rect w h x y).2.objects
      = world.objects ++
          [ObjectDescriptor.new world.particles.length
            (world.particles.length + w * h) world.springs.length
            (world.springs.length + ((w - 1) * h + w * (h - 1) + 2 * ((w - 1) * (h - 1))))
            world.boundaries.length
            (world.boundaries.length + (2 * w + 2 * h - 4))] ∧
    ∀ s ∈ (world.spawn_rect w h x y).2.springs.drop world.springs.length,
      ((s.b = s.a + 1 ∨ s.b = s.a + h) ∧ s.l0 = Particle.SPACING) ∨
      ((s.b = s.a + h + 1 ∨ s.b + h = s.a + 1) ∧ s.l0 = Real.sqrt 2 * Particle.SPACING) := by
  have hc : World.can_spawn_rect w h := ⟨hw, hh⟩
  simp only [World.spawn_rect, hc, if_pos]
  refine ⟨by trivial, ?_, ?_, ?_, ?_, ?_⟩
  · simp [rectParticles_length]
  · simp [rectBoundaries_length _ _ _ hw hh]
  · simp [rectSprings_length _ _ _ hw hh]
  · simp [rectParticles_length, rectBoundaries_length _ _ _ hw hh,
      rectSprings_length _ _ _ hw hh]
  · intro s hs
    rw [List.drop_left] at hs
    unfold rectSprings at hs
    simp only [List.mem_flatMap, List.mem_range] at hs
    obtain ⟨i, hi, j, hj, hmem⟩ := hs
    unfold cellSprings at hmem
    simp only [List.mem_append] at hmem
    have hsq := sqrt_DIAG_SQR
    rcases hmem with ((hm | hm) | hm) | hm
    · rcases Decidable.em (i < w - 1) with hc1 | hc1
      · rw [if_pos hc1, List.mem_singleton] at hm
        subst hm
        exact Or.inl ⟨Or.inr rfl, rfl⟩
      · rw [if_neg hc1] at hm
        exact absurd hm (List.not_mem_nil _)
    · rcases Decidable.em (j < h - 1) with hc1 | hc1
      · rw [if_pos hc1, List.mem_singleton] at hm
        subst hm
        exact Or.inl ⟨Or.inl rfl, rfl⟩
      · rw [if_neg hc1] at hm
        exact absurd hm (List.not_mem_nil _)
    · rcases Decidable.em (i < w - 1 ∧ j < h - 1) with hc1 | hc1
      · rw [if_pos hc1, List.mem_singleton] at hm
        subst hm
        exact Or.inr ⟨Or.inl rfl, hsq⟩
      · rw [if_neg hc1] at hm
        exact absurd hm (List.not_mem_nil _)
    · rcases Decidable.em (0 < i ∧ j < h - 1) with hc1 | hc1
      · rw [if_pos hc1, List.mem_singleton] at hm
        subst hm
        refine Or.inr ⟨Or.inr ?_, hsq⟩
        have hih : h ≤ i * h := Nat.le_mul_of_pos_left h hc1.1
        simp only [Spring.new]
        omega
      · rw [if_neg hc1] at hm
        exact absurd hm (List.not_mem_nil _)

theorem spawn_rect_spec_witness :
    (World.new.spawn_rect 2 3 0 0).1 = none ∧
    (World.new.spawn_rect 2 3 0 0).2.particles.length
      = World.new.particles.length + 2 * 3 ∧
    (World.new.spawn_rect 2 3 0 0).2.boundaries.length
      = World.new.boundaries.length + (2 * 2 + 2 * 3 - 4) ∧
    (World.new.spawn_rect 2 3 0 0).2.springs.length
      = World.new.springs.length + ((2 - 1) * 3 + 2 * (3 - 1) + 2 * ((2 - 1) * (3 - 1))) ∧
    (World.new.spawn_rect 2 3 0 0).2.objects
      = World.new.objects ++
          [ObjectDescriptor.new World.new.particles.length
            (World.new.particles.length + 2 * 3) World.new.springs.length
            (World.new.springs.length + ((2 - 1) * 3 + 2 * (3 - 1) + 2 * ((2 - 1) * (3 - 1))))
            World.new.boundaries.length
            (World.new.boundaries.length + (2 * 2 + 2 * 3 - 4))] ∧
    ∀ s ∈ (World.new.spawn_rect 2 3 0 0).2.springs.drop World.new.springs.length,
      ((s.b = s.a + 1 ∨ s.b = s.a + 3) ∧ s.l0 = Particle.SPACING) ∨
      ((s.b = s.a + 3 + 1 ∨ s.b + 3 = s.a + 1) ∧ s.l0 = Real.sqrt 2 * Particle.SPACING) :=
  spawn_rect_spec 2 3 0 0 World.new (by norm_num) (by norm_num)

/-! ## C1: spring instability aborts the sub-step -/

theorem map_listModify {α β : Type} (g : α → β) (f : α → α)
    (hf : ∀ a, g (f a) = g a) : ∀ (i : ℕ) (l : List α),
    (listModify f i l).map g = l.map g := by
  intro i l
  induction l generalizing i with
  | nil => simp [listModify]
  | cons a t ih =>
      cases i with
      | zero => simp [listModify, hf]
      | succ n => simp [listModify, ih]

theorem getD_of_map_eq {α β : Type} {l1 l2 : List α} {g : α → β}
    (h : l1.map g = l2.map g) (i : ℕ) (d : α) :
    g (l1.getD i d) = g (l2.getD i d) := by
  induction l1 generalizing l2 i with
  | nil =>
      cases l2 with
      | nil => rfl
      | cons b t => simp at h
  | cons a t ih =>
      cases l2 with
      | nil => simp at h
      | cons b t2 =>
          simp only [List.map_cons, List.cons.injEq] at h
          cases i with
          | zero => simpa using h.1
          | succ n => simpa using ih h.2 n

theorem springStretch_congr {ps qs : List Particle}
    (h : ps.map Particle.pos = qs.map Particle.pos) (s : Spring) :
    springStretch ps s = springStretch qs s := by
  unfold springStretch
  rw [getD_of_map_eq h, getD_of_map_eq h]

theorem update_spring_error_iff {s : Spring} {ps : List Particle} {d : ℝ} :
    update_spring s ps = .error d ↔
      springStretch ps s > s.l0 * 5.0 ∧ d = springStretch ps s := by
  unfold update_spring springStretch
  dsimp only
  constructor
  · intro h
    split at h
    · next hg => exact ⟨hg, by injection h with h2; exact h2.symm⟩
    · exact absurd h (by simp)
  · rintro ⟨hg, rfl⟩
    rw [if_pos hg]

theorem update_spring_ok_maps {s : Spring} {ps ps1 : List Particle}
    (h : update_spring s ps = .ok ps1) :
    ps1.map Particle.pos = ps.map Particle.pos ∧
    ps1.map Particle.vel = ps.map Particle.vel := by
  unfold update_spring at h
  dsimp only at h
  split at h
  · exact absurd h (by simp)
  · injection h with h1
    subst h1
    constructor
    · rw [map_listModify Particle.pos, map_listModify Particle.pos] <;>
        exact fun p => rfl
    · rw [map_listModify Particle.vel, map_listModify Particle.vel] <;>
        exact fun p => rfl

theorem springPass_maps : ∀ (l : List Spring) (ps : List Particle),
    (springPass l ps).2.map Particle.pos = ps.map Particle.pos ∧
    (springPass l ps).2.map Particle.vel = ps.map Particle.vel := by
  intro l
  induction l with
  | nil => exact fun ps => ⟨rfl, rfl⟩
  | cons s rest ih =>
      intro ps
      unfold springPass
      cases hu : update_spring s ps with
      | error d => exact ⟨rfl, rfl⟩
      | ok ps1 =>
          obtain ⟨hp, hv⟩ := update_spring_ok_maps hu
          obtain ⟨hp2, hv2⟩ := ih ps1
          exact ⟨hp2.trans hp, hv2.trans hv⟩

theorem springPass_error : ∀ (pre : List Spring) (s : Spring)
    (post : List Spring) (ps : List Particle),
    (∀ t ∈ pre, ¬ springStretch ps t > t.l0 * 5.0) →
    springStretch ps s > s.l0 * 5.0 →
    (springPass (pre ++ s :: post) ps).1 = some (springStretch ps s) := by
  intro pre
  induction pre with
  | nil =>
      intro s post ps _ hs
      have he : update_spring s ps = .error (springStretch ps s) :=
        update_spring_error_iff.mpr ⟨hs, rfl⟩
      simp only [List.nil_append]
      unfold springPass
      rw [he]
  | cons t pre2 ih =>
      intro s post ps hpre hs
      simp only [List.cons_append]
      unfold springPass
      cases hu : update_spring t ps with
      | error d =>
          exfalso
          exact hpre t (List.mem_cons_self t pre2)
            (update_spring_error_iff.mp hu).1
      | ok ps1 =>
          obtain ⟨hp, _⟩ := update_spring_ok_maps hu
          have hcong : ∀ u, springStretch ps1 u = springStretch ps u :=
            fun u => springStretch_congr hp u
          have hrec := ih s post ps1
            (fun u hu2 => by
              rw [hcong]
              exact hpre u (List.mem_cons_of_mem _ hu2))
            (by rw [hcong]; exact hs)
          rw [hrec, hcong]

/-- C1: if, at a sub-step's start, the springs before index `k` all pass the
instability guard while spring `k` is stretched beyond five times its rest
length, then `update` returns the error carrying exactly that stretched
distance, and no particle position or velocity is touched: the particle
collisions, the integration and the edge collisions of that sub-step never
run. -/
theorem update_instability (w : World) (k : ℕ)
    (hdt : World.DT ≤ w.dt_acc)
    (hk : k < w.springs.length)
    (hbefore : ∀ j, j < k →
      ¬ springStretch w.particles (w.springs.getD j default)
          > (w.springs.getD j default).l0 * 5.0)
    (hover : springStretch w.particles (w.springs.getD k default)
        > (w.springs.getD k default).l0 * 5.0) :
    (update w).1 = some (springStretch w.particles (w.springs.getD k default)) ∧
    (update w).2.particles.map Particle.pos = w.particles.map Particle.pos ∧
    (update w).2.particles.map Particle.vel = w.particles.map Particle.vel := by
  have hdecomp : w.springs
      = w.springs.take k ++ w.springs.getD k default :: w.springs.drop (k + 1) := by
    rw [List.getD_eq_getElem w.springs default hk]
    rw [← List.drop_eq_getElem_cons hk]
    exact (List.take_append_drop k w.springs).symm
  have hpre : ∀ t ∈ w.springs.take k,
      ¬ springStretch w.particles t > t.l0 * 5.0 := by
    intro t ht
    obtain ⟨j, hj, hget⟩ := List.mem_iff_getElem.mp ht
    have hjlt := hj
    simp only [List.length_take] at hjlt
    have hjk : j < k := by omega
    have hjlen : j < w.springs.length := by omega
    have ht2 : t = w.springs.getD j default := by
      rw [List.getD_eq_getElem w.springs default hjlen, ← hget, List.getElem_take]
    rw [ht2]
    exact hbefore j hjk
  have hsp1 : (springPass w.springs w.particles).1
      = some (springStretch w.particles (w.springs.getD k default)) := by
    conv_lhs => rw [hdecomp]
    exact springPass_error _ _ _ _ hpre hover
  rcases hsp : springPass w.springs w.particles with ⟨e, ps⟩
  rw [hsp] at hsp1
  simp only at hsp1
  subst hsp1
  have hsub : subStep w = (some (springStretch w.particles (w.springs.getD k default)),
      { w with buckets := buildBuckets w.particles w.buckets, particles := ps }) := by
    unfold subStep
    rw [hsp]
  have hupd := update_err hdt hsub
  have hmaps := springPass_maps w.springs w.particles
  rw [hsp] at hmaps
  rw [hupd]
  exact ⟨rfl, hmaps.1, hmaps.2⟩

theorem wInstab_stretch :
    springStretch wInstab.particles (wInstab.springs.getD 0 default) = 200 := by
  show Real.sqrt ((200 - 0) * (200 - 0) + (0 - 0) * (0 - 0)) = 200
  rw [show ((200 : ℝ) - 0) * (200 - 0) + (0 - 0) * (0 - 0) = 200 ^ 2 by norm_num]
  exact Real.sqrt_sq (by norm_num)

theorem update_instability_witness :
    (update wInstab).1
      = some (springStretch wInstab.particles (wInstab.springs.getD 0 default)) ∧
    (update wInstab).2.particles.map Particle.pos
      = wInstab.particles.map Particle.pos ∧
    (update wInstab).2.particles.map Particle.vel
      = wInstab.particles.map Particle.vel :=
  update_instability wInstab 0 (le_refl _) (by simp [wInstab])
    (fun j hj => absurd hj (Nat.not_lt_zero j))
    (by rw [wInstab_stretch]; simp [wInstab, Spring.new]; norm_num)

/-! ## Shared facts about `listModify`, the grid constants and concrete cells -/

theorem listModify_length {α : Type} (f : α → α) :
    ∀ (i : ℕ) (l : List α), (listModify f i l).length = l.length := by
  intro i l
  induction l generalizing i with
  | nil => simp [listModify]
  | cons a t ih =>
      cases i with
      | zero => simp [listModify]
      | succ n => simp [listModify, ih]

theorem getD_listModify_ne {α : Type} (f : α → α) {z i : ℕ} (hne : z ≠ i)
    (l : List α) (d : α) : (listModify f z l).getD i d = l.getD i d := by
  induction l generalizing z i with
  | nil => simp [listModify]
  | cons a t ih =>
      cases z with
      | zero =>
          cases i with
          | zero => exact absurd rfl hne
          | succ m => simp [listModify]
      | succ n =>
          cases i with
          | zero => simp [listModify]
          | succ m => simpa [listModify] using ih (fun h => hne (by omega))

theorem getD_listModify_self {α : Type} (f : α → α) :
    ∀ (i : ℕ) (l : List α) (d : α), i < l.length →
      (listModify f i l).getD i d = f (l.getD i d) := by
  intro i l
  induction l generalizing i with
  | nil => intro d h; simp at h
  | cons a t ih =>
      intro d h
      cases i with
      | zero => simp [listModify]
      | succ n =>
          simp only [listModify, List.getD_cons_succ]
          exact ih n _ (by simpa using h)

theorem getD_replicate_nil (n i : ℕ) :
    (List.replicate n ([] : List ℕ)).getD i [] = [] := by
  rw [List.getD_eq_getElem?_getD, List.getElem?_replicate]
  split <;> rfl

theorem gridSq_ge_8 : 8 ≤ gridSq := by
  unfold gridSq f64toUsize World.GRID HEIGHT Particle.R
  have h8 : (8 : ℤ) ≤ ⌊(1080 / (7.25 * 2.0) : ℝ) * (1080 / (7.25 * 2.0))⌋ := by
    rw [Int.le_floor]
    norm_num
  omega

theorem f64toUsize_zero_cell : f64toUsize ((0 / WIDTH) * World.GRID) = 0 := by
  unfold f64toUsize
  norm_num

theorem f64toUsize_zero_cell_y : f64toUsize ((0 / HEIGHT) * World.GRID) = 0 := by
  unfold f64toUsize
  norm_num

theorem f64toUsize_200_cell : f64toUsize ((200 / WIDTH) * World.GRID) = 7 := by
  unfold f64toUsize WIDTH World.GRID HEIGHT Particle.R
  have h7 : ⌊(200 / 1920 : ℝ) * (1080 / (7.25 * 2.0))⌋ = 7 := by
    rw [Int.floor_eq_iff]
    norm_num
  rw [h7]
  rfl

theorem grid_pos_00 : grid_pos (Particle.new 0 0) = (0, 0) := by
  unfold grid_pos
  rw [show (Particle.new 0 0).pos.x = (0 : ℝ) from rfl,
    show (Particle.new 0 0).pos.y = (0 : ℝ) from rfl,
    f64toUsize_zero_cell, f64toUsize_zero_cell_y]

theorem grid_pos_200 : grid_pos (Particle.new 200 0) = (7, 0) := by
  unfold grid_pos
  rw [show (Particle.new 200 0).pos.x = (200 : ℝ) from rfl,
    show (Particle.new 200 0).pos.y = (0 : ℝ) from rfl,
    f64toUsize_200_cell, f64toUsize_zero_cell_y]

theorem grid_idx_00 : grid_idx 0 0 = 0 := by
  unfold grid_idx
  have := gridSq_ge_8
  omega

theorem grid_idx_70 : grid_idx 7 0 = 7 := by
  unfold grid_idx
  have := gridSq_ge_8
  omega

theorem insIdx_00 : insIdx (Particle.new 0 0) = 0 := by
  unfold insIdx
  rw [grid_pos_00]
  exact grid_idx_00

theorem insIdx_200 : insIdx (Particle.new 200 0) = 7 := by
  unfold insIdx
  rw [grid_pos_200]
  exact grid_idx_70

/-! ## C5: buckets at the moment `update` returns -/

theorem subStep_none_buckets {w w' : World} (h : subStep w = (none, w')) :
    ∀ b ∈ w'.buckets, b = [] := by
  unfold subStep at h
  rcases hsp : springPass w.springs w.particles with ⟨err, ps⟩
  rw [hsp] at h
  cases err with
  | none =>
      have hb := congrArg (fun p => (Prod.snd p).buckets) h
      simp only at hb
      intro b hbmem
      rw [← hb] at hbmem
      obtain ⟨c, _, rfl⟩ := List.mem_map.mp hbmem
      rfl
  | some d => simp at h

/-- C5 (amended part): whenever the buckets are all empty at entry and
`update` returns `Ok`, every bucket is empty at the moment it returns. -/
theorem update_ok_buckets (w : World) (hpre : ∀ b ∈ w.buckets, b = [])
    (hok : (update w).1 = none) : ∀ b ∈ (update w).2.buckets, b = [] := by
  induction w using update.induct with
  | case1 w h d w' hs =>
      rw [update_err h hs] at hok
      simp at hok
  | case2 w h w' hs ih =>
      rw [update_ok_step h hs] at hok ⊢
      exact ih (subStep_none_buckets hs) hok
  | case3 w h =>
      rw [update_no_step h]
      exact hpre

theorem update_ok_buckets_witness :
    (∀ b ∈ World.new.buckets, b = []) ∧
    (∀ b ∈ (update World.new).2.buckets, b = []) :=
  ⟨fun b hb => List.eq_of_mem_replicate hb,
   update_ok_buckets World.new (fun b hb => List.eq_of_mem_replicate hb)
     (by rw [update_no_step (by norm_num [World.new, World.DT])])⟩

theorem wStale_buildBuckets :
    buildBuckets wStale.particles wStale.buckets
      = pushBucket (pushBucket (List.replicate gridSq []) 0 0) 7 1 := by
  show buildBuckets [Particle.new 0 0, Particle.new 200 0]
      (List.replicate gridSq []) = _
  unfold buildBuckets
  rw [show List.enum [Particle.new 0 0, Particle.new 200 0]
      = [(0, Particle.new 0 0), (1, Particle.new 200 0)] from rfl]
  simp only [List.foldl_cons, List.foldl_nil]
  rw [insIdx_00, insIdx_200]

/-- C5, counterexample: a state whose buckets are all empty (and reached by
separating a spring's endpoints beyond five rest lengths, exactly the
scenario of §8) on which `update` returns the instability error with bucket 0
still holding the inserted particle index: the claim that the buckets are
empty whenever `update()` returns, Ok or error, is false on the error path. -/
theorem update_error_buckets_counterexample :
    (∀ b ∈ wStale.buckets, b = []) ∧
    (update wStale).1 = some 200 ∧
    ¬ (∀ b ∈ (update wStale).2.buckets, b = []) := by
  have hsq := gridSq_ge_8
  have h200 : springStretch wStale.particles (Spring.new 0 1 21.0) = 200 :=
    wInstab_stretch
  have hover : springStretch wStale.particles (Spring.new 0 1 21.0)
      > (Spring.new 0 1 21.0).l0 * 5.0 := by
    rw [h200]
    show (200 : ℝ) > 21.0 * 5.0
    norm_num
  have hsp1 : (springPass wStale.springs wStale.particles).1 = some 200 := by
    have := springPass_error [] (Spring.new 0 1 21.0) [] wStale.particles
      (by simp) hover
    rw [h200] at this
    exact this
  rcases hsp : springPass wStale.springs wStale.particles with ⟨e, ps⟩
  rw [hsp] at hsp1
  simp only at hsp1
  subst hsp1
  have hsub : subStep wStale = (some 200,
      { particles := ps, springs := wStale.springs,
        boundaries := wStale.boundaries, objects := wStale.objects,
        edges := wStale.edges,
        buckets := buildBuckets wStale.particles wStale.buckets,
        dt_acc := wStale.dt_acc }) := by
    unfold subStep
    rw [hsp]
  have hupd := update_err (le_refl World.DT) hsub
  refine ⟨fun b hb => List.eq_of_mem_replicate hb, ?_, ?_⟩
  · rw [hupd]
  · rw [hupd]
    intro hall
    have hlen : 0 < (buildBuckets wStale.particles wStale.buckets).length := by
      rw [wStale_buildBuckets]
      unfold pushBucket
      rw [listModify_length, listModify_length, List.length_replicate]
      omega
    have hget : (buildBuckets wStale.particles wStale.buckets).getD 0 [] = [0] := by
      rw [wStale_buildBuckets]
      unfold pushBucket
      rw [getD_listModify_ne _ (by omega),
        getD_listModify_self _ _ _ _ (by rw [List.length_replicate]; omega),
        getD_replicate_nil]
      rfl
    have hmem : ([0] : List ℕ) ∈ (buildBuckets wStale.particles wStale.buckets) := by
      rw [← hget, List.getD_eq_getElem _ _ hlen]
      exact List.getElem_mem _
    have := hall [0] hmem
    simp at this

/-! ## C7: particle–edge collision response -/

theorem len_smul (c : ℝ) (v : Vec2) : (c * v).len = |c| * v.len := by
  unfold Vec2.len Vec2.len_sqr
  simp only [Vec2.smul_x, Vec2.smul_y]
  rw [show c * v.x * (c * v.x) + c * v.y * (c * v.y)
      = c ^ 2 * (v.x * v.x + v.y * v.y) by ring]
  rw [Real.sqrt_mul (sq_nonneg c), Real.sqrt_sq_eq_abs]

theorem sqrt_len_sqr (v : Vec2) : Real.sqrt v.len_sqr = v.len := rfl

theorem mul_self_len_sqr (v : Vec2) : v.len * v.len = v.len_sqr :=
  Real.mul_self_sqrt v.len_sqr_nonneg

theorem RsumEdge_pos : (0 : ℝ) < Particle.R + Edge.R := by
  norm_num [Particle.R, Edge.R]

/-- C7 (amended): with `cp` the clamped closest point of the segment to the
particle, `d` the distance to it, `q` the pushed-out position and `t` the
unit contact direction computed from it, `Edge::collide` (i) when `d` is at
most `Particle::R + Edge::R` (the code triggers at equality too) moves the
particle to `q` — out along the separation axis by the penetration depth —
and replaces its velocity by `(v - 1.5·(v·t)·t) * 0.990`; (ii) leaves the
particle completely unchanged when `d` is strictly above the threshold; and
(iii) for `0 < d` in the contact case, `q` sits at distance exactly
`Particle::R + Edge::R` from the closest point. -/
theorem edge_collide_spec (e : Edge) (p : Particle) (cp : Vec2) (d : ℝ)
    (q t : Vec2) (hcp : cp = e.closestPoint p.pos) (hd : d = (p.pos - cp).len)
    (hq : q = p.pos + ((Particle.R + Edge.R) - d) * ((p.pos - cp) / d))
    (ht : t = (q - cp) / (Edge.R + Particle.R)) :
    (d ≤ Particle.R + Edge.R →
      e.collide p =
        { pos := q,
          vel := (p.vel - ((p.vel.dot t) * t) * (1.50 : ℝ)) * Edge.FRICTION,
          acc := p.acc }) ∧
    (Particle.R + Edge.R < d → e.collide p = p) ∧
    (0 < d → d ≤ Particle.R + Edge.R →
      (q - cp).len = Particle.R + Edge.R) := by
  subst ht
  subst hq
  subst hd
  subst hcp
  have hls : Real.sqrt ((p.pos - e.closestPoint p.pos).len_sqr)
      = (p.pos - e.closestPoint p.pos).len := rfl
  refine ⟨?_, ?_, ?_⟩
  · intro hle
    have hcond : (p.pos - e.closestPoint p.pos).len_sqr
        ≤ (Particle.R + Edge.R) * (Particle.R + Edge.R) := by
      rw [← mul_self_len_sqr]
      exact mul_self_le_mul_self (Vec2.len_nonneg _) hle
    unfold Edge.collide
    dsimp only
    rw [if_pos hcond, hls]
  · intro hlt
    have hcond : ¬ ((p.pos - e.closestPoint p.pos).len_sqr
        ≤ (Particle.R + Edge.R) * (Particle.R + Edge.R)) := by
      rw [← mul_self_len_sqr]
      push_neg
      exact mul_self_lt_mul_self (le_of_lt RsumEdge_pos) hlt
    unfold Edge.collide
    dsimp only
    rw [if_neg hcond]
  · intro hdpos hle
    have hne : (p.pos - e.closestPoint p.pos).len ≠ 0 := ne_of_gt hdpos
    have hkey : p.pos + ((Particle.R + Edge.R) - (p.pos - e.closestPoint p.pos).len)
          * ((p.pos - e.closestPoint p.pos) / (p.pos - e.closestPoint p.pos).len)
        - e.closestPoint p.pos
        = ((Particle.R + Edge.R) / (p.pos - e.closestPoint p.pos).len)
          * (p.pos - e.closestPoint p.pos) := by
      ext <;>
        · simp only [Vec2.add_x, Vec2.add_y, Vec2.sub_x, Vec2.sub_y,
            Vec2.smul_x, Vec2.smul_y, Vec2.div_x, Vec2.div_y]
          field_simp
          ring
    rw [hkey, len_smul,
      abs_of_nonneg (div_nonneg (le_of_lt RsumEdge_pos) (Vec2.len_nonneg _)),
      div_mul_cancel₀ _ hne]

theorem e0_closestPoint (a : ℝ) :
    e0def.closestPoint (Vec2.new 0 a) = Vec2.new 0 0 := by
  unfold e0def Edge.closestPoint Edge.new Vec2.dot Vec2.len_sqr
  ext <;>
    · simp only [Vec2.add_x, Vec2.add_y, Vec2.sub_x, Vec2.sub_y,
        Vec2.smul_x, Vec2.smul_y, Vec2.new_x, Vec2.new_y]
      norm_num

/-- C7, counterexample: at distance exactly `Particle::R + Edge::R` (not
below the threshold, so per the claim the particle should be left unchanged)
the code still runs the contact branch and rescales the velocity by the
friction factor. -/
theorem edge_collide_exact_contact_counterexample :
    ¬ ((p0def.pos - e0def.closestPoint p0def.pos).len
        < Particle.R + Edge.R) ∧
    (e0def.collide p0def).vel ≠ p0def.vel := by
  have hcp : e0def.closestPoint p0def.pos = Vec2.new 0 0 :=
    e0_closestPoint (145 / 8)
  have hls : (p0def.pos - Vec2.new 0 0).len_sqr = ((145 : ℝ) / 8) ^ 2 := by
    unfold p0def Vec2.len_sqr
    simp only [Vec2.sub_x, Vec2.sub_y, Vec2.new_x, Vec2.new_y]
    norm_num
  have hlen : (p0def.pos - Vec2.new 0 0).len = 145 / 8 := by
    unfold Vec2.len
    rw [hls]
    exact Real.sqrt_sq (by norm_num)
  have hRsum : Particle.R + Edge.R = (145 : ℝ) / 8 := by
    norm_num [Particle.R, Edge.R]
  constructor
  · rw [hcp, hlen, hRsum]
    exact lt_irrefl _
  · unfold Edge.collide
    dsimp only
    rw [hcp, hls]
    rw [if_pos (by rw [hRsum]; norm_num)]
    rw [Real.sqrt_sq (by norm_num : (0 : ℝ) ≤ 145 / 8)]
    intro h
    have hx := congrArg Vec2.x h
    simp only [Vec2.muls_x, Vec2.sub_x, Vec2.smul_x, Vec2.div_x, Vec2.add_x,
      Vec2.muls_y, Vec2.sub_y, Vec2.smul_y, Vec2.div_y, Vec2.add_y,
      Vec2.dot] at hx
    unfold p0def Edge.FRICTION Particle.R Edge.R at hx
    simp only [Vec2.new_x, Vec2.new_y, Vec2.sub_x, Vec2.sub_y, Vec2.add_x,
      Vec2.add_y, Vec2.smul_x, Vec2.smul_y, Vec2.div_x, Vec2.div_y] at hx
    norm_num at hx

theorem edge_collide_spec_witness :
    ((10 : ℝ) ≤ Particle.R + Edge.R →
      e0def.collide { pos := Vec2.new 0 10, vel := Vec2.new 1 0, acc := Vec2.null }
        = { pos := Vec2.new 0 (145 / 8),
            vel := ((Vec2.new 1 0) - (((Vec2.new 1 0).dot (Vec2.new 0 1)) * (Vec2.new 0 1)) * (1.50 : ℝ))
              * Edge.FRICTION,
            acc := Vec2.null }) ∧
    (Particle.R + Edge.R < (10 : ℝ) →
      e0def.collide { pos := Vec2.new 0 10, vel := Vec2.new 1 0, acc := Vec2.null }
        = { pos := Vec2.new 0 10, vel := Vec2.new 1 0, acc := Vec2.null }) ∧
    ((0 : ℝ) < 10 → (10 : ℝ) ≤ Particle.R + Edge.R →
      (Vec2.new 0 (145 / 8) - Vec2.new 0 0).len = Particle.R + Edge.R) := by
  have hcp : Vec2.new 0 0
      = e0def.closestPoint (Vec2.new 0 10 : Vec2) := (e0_closestPoint 10).symm
  have hd : (10 : ℝ) = ((Vec2.new 0 10 : Vec2) - Vec2.new 0 0).len := by
    unfold Vec2.len Vec2.len_sqr
    simp only [Vec2.sub_x, Vec2.sub_y, Vec2.new_x, Vec2.new_y]
    rw [show ((0 : ℝ) - 0) * (0 - 0) + (10 - 0) * (10 - 0) = 10 ^ 2 by norm_num]
    exact (Real.sqrt_sq (by norm_num)).symm
  have hq : Vec2.new 0 (145 / 8)
      = Vec2.new 0 10 + ((Particle.R + Edge.R) - (10 : ℝ))
          * ((Vec2.new 0 10 - Vec2.new 0 0) / (10 : ℝ)) := by
    ext <;>
      · simp only [Vec2.add_x, Vec2.add_y, Vec2.sub_x, Vec2.sub_y,
          Vec2.smul_x, Vec2.smul_y, Vec2.div_x, Vec2.div_y,
          Vec2.new_x, Vec2.new_y]
        norm_num [Particle.R, Edge.R]
  have ht : Vec2.new 0 1
      = (Vec2.new 0 (145 / 8) - Vec2.new 0 0) / (Edge.R + Particle.R) := by
    ext <;>
      · simp only [Vec2.sub_x, Vec2.sub_y, Vec2.div_x, Vec2.div_y,
          Vec2.new_x, Vec2.new_y]
        norm_num [Particle.R, Edge.R]
  exact edge_collide_spec e0def
    { pos := Vec2.new 0 10, vel := Vec2.new 1 0, acc := Vec2.null }
    (Vec2.new 0 0) 10 (Vec2.new 0 (145 / 8)) (Vec2.new 0 1) hcp hd hq ht

/-! ## C8: particle–particle collision response -/

theorem twoR_pos : (0 : ℝ) < 2.0 * Particle.R := by
  norm_num [Particle.R]

/-- C8 (amended): for two particles at positive distance `d ≤ 2·R`,
`Particle::collide` moves each particle by half the overlap along the line
joining the centers (u is that unit axis), leaves them separated by exactly
`2·R` (hence within any tolerance of `2·R`), and exchanges the velocity
components along the same axis symmetrically; two particles strictly farther
apart than `2·R` are left completely unchanged.  Coincident particles
(`d = 0`) fall outside both cases: the real-arithmetic model leaves them in
place (IEEE arithmetic produces NaN), which the counterexample records. -/
theorem particle_collide_spec (p q : Particle) (d : ℝ) (u : Vec2)
    (hd : d = (q.pos - p.pos).len) (hu : u = (q.pos - p.pos) / d) :
    (0 < d → d ≤ 2.0 * Particle.R →
      (p.collide q).1.pos = p.pos - (0.5 * (2.0 * Particle.R - d)) * u ∧
      (p.collide q).2.pos = q.pos + (0.5 * (2.0 * Particle.R - d)) * u ∧
      ((p.collide q).2.pos - (p.collide q).1.pos).len = 2.0 * Particle.R ∧
      (p.collide q).1.vel = p.vel - (p.vel.dot u - q.vel.dot u) * u ∧
      (p.collide q).2.vel = q.vel + (p.vel.dot u - q.vel.dot u) * u) ∧
    (2.0 * Particle.R < d → p.collide q = (p, q)) := by
  subst hu
  subst hd
  constructor
  · intro hdpos hdle
    have hne : (q.pos - p.pos).len ≠ 0 := ne_of_gt hdpos
    have hcond : (2.0 * Particle.R) * (2.0 * Particle.R)
        ≥ (q.pos - p.pos).len_sqr := by
      rw [← mul_self_len_sqr]
      exact mul_self_le_mul_self (Vec2.len_nonneg _) hdle
    have hsq : Real.sqrt ((q.pos - p.pos).len_sqr) = (q.pos - p.pos).len := rfl
    unfold Particle.collide
    dsimp only
    rw [if_pos hcond, hsq]
    have hnorm : (q.pos + 0.5 * (2.0 * Particle.R - (q.pos - p.pos).len)
            * ((q.pos - p.pos) / (q.pos - p.pos).len)
          - (p.pos - 0.5 * (2.0 * Particle.R - (q.pos - p.pos).len)
            * ((q.pos - p.pos) / (q.pos - p.pos).len))) / (2.0 * Particle.R)
        = (q.pos - p.pos) / (q.pos - p.pos).len := by
      ext <;>
        · simp only [Vec2.add_x, Vec2.add_y, Vec2.sub_x, Vec2.sub_y,
            Vec2.smul_x, Vec2.smul_y, Vec2.div_x, Vec2.div_y]
          rw [div_eq_div_iff (ne_of_gt twoR_pos) hne]
          field_simp
          ring
    have hsep : q.pos + 0.5 * (2.0 * Particle.R - (q.pos - p.pos).len)
            * ((q.pos - p.pos) / (q.pos - p.pos).len)
          - (p.pos - 0.5 * (2.0 * Particle.R - (q.pos - p.pos).len)
            * ((q.pos - p.pos) / (q.pos - p.pos).len))
        = ((2.0 * Particle.R) / (q.pos - p.pos).len) * (q.pos - p.pos) := by
      ext <;>
        · simp only [Vec2.add_x, Vec2.add_y, Vec2.sub_x, Vec2.sub_y,
            Vec2.smul_x, Vec2.smul_y, Vec2.div_x, Vec2.div_y]
          field_simp
          ring
    refine ⟨rfl, rfl, ?_, ?_, ?_⟩
    · rw [hsep, len_smul,
        abs_of_nonneg (div_nonneg (le_of_lt twoR_pos) (Vec2.len_nonneg _)),
        div_mul_cancel₀ _ hne]
    · rw [hnorm]
    · rw [hnorm]
  · intro hlt
    have hcond : ¬ ((2.0 * Particle.R) * (2.0 * Particle.R)
        ≥ (q.pos - p.pos).len_sqr) := by
      rw [← mul_self_len_sqr]
      push_neg
      exact mul_self_lt_mul_self (le_of_lt twoR_pos) hlt
    unfold Particle.collide
    dsimp only
    rw [if_neg hcond]

/-- C8, counterexample: two coincident particles are within `2·R` of each
other, yet one collision resolution leaves them at separation `0` — not
separated by at least `2·R` minus any reasonable tolerance (here even a
tolerance as large as a whole particle radius). -/
theorem particle_collide_coincident_counterexample :
    (((Particle.new 100 100).collide (Particle.new 100 100)).2.pos
        - ((Particle.new 100 100).collide (Particle.new 100 100)).1.pos).len = 0 ∧
    ¬ (2.0 * Particle.R - Particle.R ≤
        (((Particle.new 100 100).collide (Particle.new 100 100)).2.pos
          - ((Particle.new 100 100).collide (Particle.new 100 100)).1.pos).len) := by
  have hls : ((Particle.new 100 100).pos - (Particle.new 100 100).pos).len_sqr
      = 0 := by
    unfold Particle.new Vec2.len_sqr
    simp only [Vec2.sub_x, Vec2.sub_y, Vec2.new_x, Vec2.new_y]
    norm_num
  have hmain : (((Particle.new 100 100).collide (Particle.new 100 100)).2.pos
      - ((Particle.new 100 100).collide (Particle.new 100 100)).1.pos).len
      = 0 := by
    unfold Particle.collide
    dsimp only
    rw [hls]
    rw [if_pos (by norm_num [Particle.R])]
    rw [Real.sqrt_zero]
    have hx : ∀ a : ℝ, a / (0 : ℝ) = 0 := fun a => div_zero a
    unfold Vec2.len Vec2.len_sqr
    simp only [Vec2.add_x, Vec2.add_y, Vec2.sub_x, Vec2.sub_y,
      Vec2.smul_x, Vec2.smul_y, Vec2.div_x, Vec2.div_y, hx]
    unfold Particle.new
    simp only [Vec2.new_x, Vec2.new_y]
    rw [show ((100 : ℝ) + 0.5 * (2.0 * Particle.R - 0) * 0
          - (100 - 0.5 * (2.0 * Particle.R - 0) * 0))
          * (100 + 0.5 * (2.0 * Particle.R - 0) * 0
          - (100 - 0.5 * (2.0 * Particle.R - 0) * 0))
        + (100 + 0.5 * (2.0 * Particle.R - 0) * 0
          - (100 - 0.5 * (2.0 * Particle.R - 0) * 0))
          * (100 + 0.5 * (2.0 * Particle.R - 0) * 0
          - (100 - 0.5 * (2.0 * Particle.R - 0) * 0)) = 0 by ring]
    exact Real.sqrt_zero
  refine ⟨hmain, ?_⟩
  rw [hmain]
  norm_num [Particle.R]

theorem particle_collide_spec_witness :
    ((0 : ℝ) < 10 → (10 : ℝ) ≤ 2.0 * Particle.R →
      ((Particle.new 0 0).collide (Particle.new 10 0)).1.pos
          = (Particle.new 0 0).pos
            - (0.5 * (2.0 * Particle.R - 10)) * Vec2.new 1 0 ∧
      ((Particle.new 0 0).collide (Particle.new 10 0)).2.pos
          = (Particle.new 10 0).pos
            + (0.5 * (2.0 * Particle.R - 10)) * Vec2.new 1 0 ∧
      (((Particle.new 0 0).collide (Particle.new 10 0)).2.pos
          - ((Particle.new 0 0).collide (Particle.new 10 0)).1.pos).len
          = 2.0 * Particle.R ∧
      ((Particle.new 0 0).collide (Particle.new 10 0)).1.vel
          = (Particle.new 0 0).vel
            - ((Particle.new 0 0).vel.dot (Vec2.new 1 0)
              - (Particle.new 10 0).vel.dot (Vec2.new 1 0)) * Vec2.new 1 0 ∧
      ((Particle.new 0 0).collide (Particle.new 10 0)).2.vel
          = (Particle.new 10 0).vel
            + ((Particle.new 0 0).vel.dot (Vec2.new 1 0)
              - (Particle.new 10 0).vel.dot (Vec2.new 1 0)) * Vec2.new 1 0) ∧
    (2.0 * Particle.R < (10 : ℝ) →
      (Particle.new 0 0).collide (Particle.new 10 0)
        = (Particle.new 0 0, Particle.new 10 0)) := by
  have hd : (10 : ℝ)
      = ((Particle.new 10 0).pos - (Particle.new 0 0).pos).len := by
    unfold Particle.new Vec2.len Vec2.len_sqr
    simp only [Vec2.sub_x, Vec2.sub_y, Vec2.new_x, Vec2.new_y]
    rw [show ((10 : ℝ) - 0) * (10 - 0) + (0 - 0) * (0 - 0) = 10 ^ 2 by norm_num]
    exact (Real.sqrt_sq (by norm_num)).symm
  have hu : Vec2.new 1 0
      = ((Particle.new 10 0).pos - (Particle.new 0 0).pos) / (10 : ℝ) := by
    unfold Particle.new
    ext <;>
      · simp only [Vec2.sub_x, Vec2.sub_y, Vec2.div_x, Vec2.div_y,
          Vec2.new_x, Vec2.new_y]
        norm_num
  exact particle_collide_spec (Particle.new 0 0) (Particle.new 10 0) 10
    (Vec2.new 1 0) hd hu

/-! ## C3: the half-stencil of the broad phase -/

theorem gridN_eq : gridN = 74 := by
  unfold gridN f64toUsize World.GRID HEIGHT Particle.R
  have h : ⌊(1080 / (7.25 * 2.0) : ℝ)⌋ = 74 := by
    rw [Int.floor_eq_iff]
    norm_num
  rw [h]
  rfl

theorem gridSq_eq : gridSq = 5547 := by
  unfold gridSq f64toUsize World.GRID HEIGHT Particle.R
  have h : ⌊(1080 / (7.25 * 2.0) : ℝ) * (1080 / (7.25 * 2.0))⌋ = 5547 := by
    rw [Int.floor_eq_iff]
    norm_num
  rw [h]
  rfl

theorem listModify_ge {α : Type} (f : α → α) :
    ∀ (i : ℕ) (l : List α), l.length ≤ i → listModify f i l = l := by
  intro i l
  induction l generalizing i with
  | nil => intro _; simp [listModify]
  | cons a t ih =>
      intro h
      cases i with
      | zero => simp at h
      | succ n =>
          simp only [listModify, List.cons.injEq, true_and]
          exact ih n (by simpa using h)

theorem pushBucket_length (bs : List (List ℕ)) (w i : ℕ) :
    (pushBucket bs w i).length = bs.length := by
  unfold pushBucket
  exact listModify_length _ _ _

theorem count_singleton_nat (i j : ℕ) :
    ([i] : List ℕ).count j = if i = j then 1 else 0 := by
  simp [List.count_singleton']

theorem count_pushBucket (bs : List (List ℕ)) (w i z j : ℕ) :
    ((pushBucket bs w i).getD z []).count j
      = (bs.getD z []).count j
        + (if w = z ∧ z < bs.length ∧ i = j then 1 else 0) := by
  unfold pushBucket
  by_cases hwz : w = z
  · subst hwz
    by_cases hlt : w < bs.length
    · rw [getD_listModify_self _ _ _ _ hlt]
      rw [List.count_append, count_singleton_nat]
      by_cases hij : i = j <;> simp [hij, hlt]
    · rw [listModify_ge _ _ _ (le_of_not_lt hlt)]
      simp [hlt]
  · rw [getD_listModify_ne _ hwz]
    simp [hwz]

theorem count_buildFrom : ∀ (l : List Particle) (n : ℕ) (bs : List (List ℕ))
    (z j : ℕ),
    (((l.enumFrom n).foldl (fun bs pr => pushBucket bs (insIdx pr.2) pr.1)
        bs).getD z []).count j
      = (bs.getD z []).count j
        + (if n ≤ j ∧ j < n + l.length
              ∧ insIdx (l.getD (j - n) default) = z ∧ z < bs.length
           then 1 else 0) := by
  intro l
  induction l with
  | nil =>
      intro n bs z j
      have h2 : ¬ (n ≤ j ∧ j < n + ([] : List Particle).length
          ∧ insIdx (([] : List Particle).getD (j - n) default) = z
          ∧ z < bs.length) := by
        intro hc
        obtain ⟨ha, hb, -, -⟩ := hc
        simp only [List.length_nil, Nat.add_zero] at hb
        omega
      rw [show (([] : List Particle).enumFrom n) = [] from rfl]
      rw [List.foldl_nil, if_neg h2]
      exact (Nat.add_zero _).symm
  | cons p t ih =>
      intro n bs z j
      rw [show (p :: t).enumFrom n = (n, p) :: t.enumFrom (n + 1) from rfl]
      rw [List.foldl_cons, ih, count_pushBucket, pushBucket_length]
      by_cases hj : j = n
      · subst hj
        rw [Nat.sub_self, List.getD_cons_zero]
        have hr : ¬ (j + 1 ≤ j) := by omega
        have hlt2 : j < j + (t.length + 1) := by omega
        by_cases hz : insIdx p = z <;> by_cases hl : z < bs.length <;>
          simp [hz, hl, hr, hlt2]
      · rcases Nat.lt_or_ge j n with hlt | hge
        · have h1 : ¬ (n = j) := fun hc => hj hc.symm
          have h2 : ¬ (n + 1 ≤ j) := by omega
          have h3 : ¬ (n ≤ j) := by omega
          simp [h1, h2, h3]
        · have hgt : n < j := by omega
          have hgetD : (p :: t).getD (j - n) default
              = t.getD (j - (n + 1)) default := by
            have hidx : j - n = (j - (n + 1)) + 1 := by omega
            rw [hidx, List.getD_cons_succ]
          rw [hgetD]
          have h1 : ¬ (n = j) := fun hc => hj hc.symm
          have ht1 : n + 1 ≤ j := hgt
          have ht2 : n ≤ j := by omega
          have hiff : j < n + 1 + t.length ↔ j < n + (t.length + 1) := by
            omega
          by_cases hz : insIdx (t.getD (j - (n + 1)) default) = z <;>
            by_cases hl : z < bs.length <;>
            simp [h1, ht1, ht2, hiff, hz, hl]

/-- The spatial hash built from empty buckets holds each in-range particle
index exactly once, in the bucket of its cell. -/
theorem count_buildBuckets (ps : List Particle) (z j : ℕ) :
    ((buildBuckets ps (List.replicate gridSq [])).getD z []).count j
      = (if j < ps.length ∧ insIdx (ps.getD j default) = z ∧ z < gridSq
         then 1 else 0) := by
  unfold buildBuckets
  rw [show ps.enum = ps.enumFrom 0 from rfl, count_buildFrom]
  rw [getD_replicate_nil]
  simp only [List.count_nil, List.length_replicate, zero_add, Nat.zero_le,
    true_and, Nat.sub_zero]

theorem collide_bucket_log (i : ℕ) : ∀ (bucket : List ℕ)
    (st : Particle × List Particle × List (ℕ × ℕ)),
    (collide_bucket i bucket st).2.2
      = st.2.2 ++ bucket.flatMap (fun j => if i ≠ j then [(i, j)] else []) := by
  intro bucket
  induction bucket with
  | nil => intro st; simp [collide_bucket]
  | cons j rest ih =>
      intro st
      unfold collide_bucket
      rw [List.foldl_cons]
      unfold collide_bucket at ih
      by_cases hij : i ≠ j
      · rw [if_pos hij, ih]
        simp [hij, List.flatMap_cons]
      · rw [if_neg hij, ih]
        simp [hij, List.flatMap_cons]

theorem stencilFold_log (i : ℕ) (bs : List (List ℕ)) : ∀ (cells : List ℕ)
    (st : Particle × List Particle × List (ℕ × ℕ)),
    ((cells.foldl (fun s z => collide_bucket i (bs.getD z []) s) st)).2.2
      = st.2.2 ++ cells.flatMap (fun z => (bs.getD z []).flatMap
          (fun j => if i ≠ j then [(i, j)] else [])) := by
  intro cells
  induction cells with
  | nil => intro st; simp
  | cons z rest ih =>
      intro st
      rw [List.foldl_cons, ih, collide_bucket_log]
      simp [List.flatMap_cons]

theorem particleStep_log (bs : List (List ℕ))
    (st : List Particle × List (ℕ × ℕ)) (i : ℕ) :
    (particleStep bs st i).2
      = st.2 ++ cellScanLog bs i (grid_pos (st.1.getD i default)).1
          (grid_pos (st.1.getD i default)).2 := by
  unfold particleStep cellScanLog
  dsimp only
  rw [stencilFold_log]

theorem passState_succ (ps : List Particle) (bs : List (List ℕ)) (k : ℕ) :
    passState ps bs (k + 1) = particleStep bs (passState ps bs k) k := by
  unfold passState
  rw [List.range_succ, List.foldl_append, List.foldl_cons, List.foldl_nil]

theorem passState_log (ps : List Particle) (bs : List (List ℕ)) :
    ∀ k : ℕ, (passState ps bs k).2
      = (List.range k).flatMap (fun i =>
          cellScanLog bs i (grid_pos ((passState ps bs i).1.getD i default)).1
            (grid_pos ((passState ps bs i).1.getD i default)).2) := by
  intro k
  induction k with
  | zero => simp [passState]
  | succ m ih =>
      rw [passState_succ, particleStep_log, ih, List.range_succ,
        List.flatMap_append]
      simp

theorem testedPairs_log (ps : List Particle) (bs : List (List ℕ)) :
    testedPairs ps bs
      = (List.range ps.length).flatMap (fun i =>
          cellScanLog bs i (grid_pos ((passState ps bs i).1.getD i default)).1
            (grid_pos ((passState ps bs i).1.getD i default)).2) := by
  rw [show testedPairs ps bs = (passState ps bs ps.length).2 from rfl]
  exact passState_log ps bs ps.length

theorem countP_ite_pair (a b i j : ℕ) :
    ((if i ≠ j then [(i, j)] else []) : List (ℕ × ℕ)).countP (pairMatches a b)
      = if i ≠ j ∧ pairMatches a b (i, j) then 1 else 0 := by
  by_cases hij : i ≠ j
  · rw [if_pos hij]
    by_cases hm : pairMatches a b (i, j)
    · simp [hm, hij]
    · simp only [List.countP_cons, List.countP_nil]
      simp [hm, hij]
  · rw [if_neg hij]
    simp [hij]

theorem bucketScan_countP_fst (a b : ℕ) (hab : a ≠ b) : ∀ bucket : List ℕ,
    ((bucket.flatMap fun j => if a ≠ j then [(a, j)] else []) :
        List (ℕ × ℕ)).countP (pairMatches a b)
      = bucket.count b := by
  intro bucket
  induction bucket with
  | nil => simp
  | cons j rest ih =>
      rw [List.flatMap_cons, List.countP_append, ih, countP_ite_pair,
        List.count_cons]
      have hm : pairMatches a b (a, j) = true ↔ j = b := by
        unfold pairMatches
        rw [decide_eq_true_eq]
        constructor
        · rintro (⟨_, hjb⟩ | ⟨hab2, _⟩)
          · exact hjb
          · exact absurd hab2 hab
        · intro h
          exact Or.inl ⟨rfl, h⟩
      by_cases hj : j = b
      · rw [if_pos ⟨(fun hc => hab (hc.trans hj) : a ≠ j), hm.mpr hj⟩]
        have hjb : (j == b) = true := beq_iff_eq.mpr hj
        rw [hjb]
        simp
        all_goals omega
      · have hcond : ¬ (a ≠ j ∧ pairMatches a b (a, j) = true) := by
          intro hc
          exact hj (hm.mp hc.2)
        rw [if_neg hcond]
        have hjb : (j == b) = false := by
          rw [beq_eq_false_iff_ne]
          exact hj
        rw [hjb]
        simp

theorem bucketScan_countP_snd (a b : ℕ) (hab : a ≠ b) : ∀ bucket : List ℕ,
    ((bucket.flatMap fun j => if b ≠ j then [(b, j)] else []) :
        List (ℕ × ℕ)).countP (pairMatches a b)
      = bucket.count a := by
  intro bucket
  induction bucket with
  | nil => simp
  | cons j rest ih =>
      rw [List.flatMap_cons, List.countP_append, ih, countP_ite_pair,
        List.count_cons]
      have hm : pairMatches a b (b, j) = true ↔ j = a := by
        unfold pairMatches
        rw [decide_eq_true_eq]
        constructor
        · rintro (⟨hba, _⟩ | ⟨_, hja⟩)
          · exact absurd hba.symm hab
          · exact hja
        · intro h
          exact Or.inr ⟨rfl, h⟩
      by_cases hj : j = a
      · rw [if_pos ⟨(fun hc => hab (hc.trans hj).symm : b ≠ j), hm.mpr hj⟩]
        have hja : (j == a) = true := beq_iff_eq.mpr hj
        rw [hja]
        simp
        all_goals omega
      · have hcond : ¬ (b ≠ j ∧ pairMatches a b (b, j) = true) := by
          intro hc
          exact hj (hm.mp hc.2)
        rw [if_neg hcond]
        have hja : (j == a) = false := by
          rw [beq_eq_false_iff_ne]
          exact hj
        rw [hja]
        simp

theorem countP_cellScanLog_other (bs : List (List ℕ)) (i x y a b : ℕ)
    (hia : i ≠ a) (hib : i ≠ b) :
    (cellScanLog bs i x y).countP (pairMatches a b) = 0 := by
  rw [List.countP_eq_zero]
  intro pr hpr
  unfold cellScanLog at hpr
  simp only [List.mem_flatMap] at hpr
  obtain ⟨z, _, j, _, hpr⟩ := hpr
  by_cases hij : i ≠ j
  · rw [if_pos hij, List.mem_singleton] at hpr
    subst hpr
    unfold pairMatches
    simp [hia, hib]
  · rw [if_neg hij] at hpr
    exact absurd hpr (List.not_mem_nil _)

theorem count_eq_sum_indicator : ∀ (l : List ℕ) (c : ℕ),
    (l.map fun z => if c = z then 1 else 0).sum = l.count c := by
  intro l c
  induction l with
  | nil => simp
  | cons z rest ih =>
      rw [List.map_cons, List.sum_cons, ih, List.count_cons]
      by_cases hz : c = z
      · rw [if_pos hz]
        have hzc : (z == c) = true := beq_iff_eq.mpr hz.symm
        rw [hzc]
        simp
        all_goals omega
      · rw [if_neg hz]
        have hzc : (z == c) = false := by
          rw [beq_eq_false_iff_ne]
          exact fun hc => hz hc.symm
        rw [hzc]
        simp

theorem stencil_mem_lt_gridSq {x y z : ℕ} (hz : z ∈ stencilCells x y) :
    z < gridSq := by
  have h8 := gridSq_ge_8
  have hidx : ∀ u v : ℕ, grid_idx u v < gridSq := by
    intro u v
    unfold grid_idx
    omega
  unfold stencilCells at hz
  simp only [List.append_assoc, List.mem_append, List.mem_singleton] at hz
  rcases hz with rfl | hz
  · exact hidx _ _
  rcases hz with hz | hz
  · rcases Decidable.em (0 < y) with hg | hg
    · rw [if_pos hg, List.mem_singleton] at hz
      exact hz ▸ hidx _ _
    · rw [if_neg hg] at hz
      exact absurd hz (List.not_mem_nil _)
  rcases hz with hz | hz
  · rcases Decidable.em (0 < y ∧ 0 < x) with hg | hg
    · rw [if_pos hg, List.mem_singleton] at hz
      exact hz ▸ hidx _ _
    · rw [if_neg hg] at hz
      exact absurd hz (List.not_mem_nil _)
  rcases hz with hz | hz
  · rcases Decidable.em (0 < x) with hg | hg
    · rw [if_pos hg, List.mem_singleton] at hz
      exact hz ▸ hidx _ _
    · rw [if_neg hg] at hz
      exact absurd hz (List.not_mem_nil _)
  · rcases Decidable.em (0 < x ∧ y < gridN) with hg | hg
    · rw [if_pos hg, List.mem_singleton] at hz
      exact hz ▸ hidx _ _
    · rw [if_neg hg] at hz
      exact absurd hz (List.not_mem_nil _)

theorem sum_range_zero_support (n : ℕ) (g : ℕ → ℕ)
    (h0 : ∀ i, i < n → g i = 0) : ((List.range n).map g).sum = 0 := by
  apply List.sum_eq_zero
  intro x hx
  obtain ⟨i, hi, rfl⟩ := List.mem_map.mp hx
  exact h0 i (List.mem_range.mp hi)

theorem sum_range_one_support (n a : ℕ) (g : ℕ → ℕ) (ha : a < n)
    (h0 : ∀ i, i < n → i ≠ a → g i = 0) :
    ((List.range n).map g).sum = g a := by
  induction n with
  | zero => omega
  | succ m ih =>
      rw [List.range_succ, List.map_append, List.sum_append]
      simp only [List.map_cons, List.map_nil, List.sum_cons, List.sum_nil]
      by_cases hma : m = a
      · subst hma
        rw [sum_range_zero_support m g (fun i hi => h0 i (by omega) (by omega))]
        omega
      · rw [h0 m (by omega) hma, ih (by omega) (fun i hi hne => h0 i (by omega) hne)]
        omega

theorem sum_range_two_support (n a b : ℕ) (g : ℕ → ℕ) (ha : a < n)
    (hb : b < n) (hab : a ≠ b)
    (h0 : ∀ i, i < n → i ≠ a → i ≠ b → g i = 0) :
    ((List.range n).map g).sum = g a + g b := by
  induction n with
  | zero => omega
  | succ m ih =>
      rw [List.range_succ, List.map_append, List.sum_append]
      simp only [List.map_cons, List.map_nil, List.sum_cons, List.sum_nil]
      by_cases hma : m = a
      · subst hma
        rw [sum_range_one_support m b g (by omega)
          (fun i hi hne => h0 i (by omega) (by omega) hne)]
        omega
      · by_cases hmb : m = b
        · subst hmb
          rw [sum_range_one_support m a g (by omega)
            (fun i hi hne => h0 i (by omega) hne (by omega))]
          omega
        · rw [h0 m (by omega) hma hmb,
            ih (by omega) (by omega) (fun i hi h1 h2 => h0 i (by omega) h1 h2)]
          omega

theorem minIdx_eq_iff (u v u2 v2 : ℕ) (h1 : u < 74) (h2 : v < 74)
    (h3 : u2 < 74) (h4 : v2 ≤ 74) :
    (min (u + v * 74) (5547 - 1) = min (u2 + v2 * 74) (5547 - 1))
      ↔ (u = u2 ∧ v = v2) := by
  have e1 : min (u + v * 74) (5547 - 1) = u + v * 74 :=
    Nat.min_eq_left (by omega)
  rcases Nat.lt_or_ge v2 74 with hv | hv
  · have e2 : min (u2 + v2 * 74) (5547 - 1) = u2 + v2 * 74 :=
      Nat.min_eq_left (by omega)
    rw [e1, e2]
    omega
  · have hv74 : v2 = 74 := by omega
    subst hv74
    rw [e1]
    constructor
    · intro h
      omega
    · intro hc
      omega

theorem stencil_mem_iff (xa ya xb yb : ℕ) (ha1 : xa < 74) (ha2 : ya < 74)
    (hb1 : xb < 74) (hb2 : yb < 74) :
    grid_idx xb yb ∈ stencilCells xa ya ↔
      ((xb = xa ∧ yb = ya) ∨ (xb = xa ∧ yb + 1 = ya)
        ∨ (xb + 1 = xa ∧ yb + 1 = ya) ∨ (xb + 1 = xa ∧ yb = ya)
        ∨ (xb + 1 = xa ∧ yb = ya + 1)) := by
  unfold stencilCells grid_idx
  rw [gridN_eq, gridSq_eq]
  simp only [List.mem_append, List.mem_ite_nil_right, List.mem_singleton]
  rw [minIdx_eq_iff xb yb xa ya hb1 hb2 ha1 (by omega),
    minIdx_eq_iff xb yb xa (ya - 1) hb1 hb2 ha1 (by omega),
    minIdx_eq_iff xb yb (xa - 1) (ya - 1) hb1 hb2 (by omega) (by omega),
    minIdx_eq_iff xb yb (xa - 1) ya hb1 hb2 (by omega) (by omega),
    minIdx_eq_iff xb yb (xa - 1) (ya + 1) hb1 hb2 (by omega) (by omega)]
  omega

theorem stencil_nodup (x y : ℕ) (h1 : x < 74) (h2 : y < 74) :
    (stencilCells x y).Nodup := by
  unfold stencilCells grid_idx
  rw [gridN_eq, gridSq_eq]
  by_cases hy : 0 < y <;> by_cases hx : 0 < x
  · simp only [hy, hx, true_and, and_true, if_true, ite_true,
      List.singleton_append, List.cons_append, List.nil_append]
    simp only [List.nodup_cons, List.mem_cons, List.mem_singleton,
      List.not_mem_nil, List.nodup_nil, not_or, and_true, or_false,
      not_false_eq_true, List.mem_append, List.mem_ite_nil_right, h2]
    rw [minIdx_eq_iff x y x (y - 1) h1 h2 h1 (by omega),
      minIdx_eq_iff x y (x - 1) (y - 1) h1 h2 (by omega) (by omega),
      minIdx_eq_iff x y (x - 1) y h1 h2 (by omega) (by omega),
      minIdx_eq_iff x y (x - 1) (y + 1) h1 h2 (by omega) (by omega),
      minIdx_eq_iff x (y - 1) (x - 1) (y - 1) h1 (by omega) (by omega) (by omega),
      minIdx_eq_iff x (y - 1) (x - 1) y h1 (by omega) (by omega) (by omega),
      minIdx_eq_iff x (y - 1) (x - 1) (y + 1) h1 (by omega) (by omega) (by omega),
      minIdx_eq_iff (x - 1) (y - 1) (x - 1) y (by omega) (by omega) (by omega) (by omega),
      minIdx_eq_iff (x - 1) (y - 1) (x - 1) (y + 1) (by omega) (by omega) (by omega) (by omega),
      minIdx_eq_iff (x - 1) y (x - 1) (y + 1) (by omega) (by omega) (by omega) (by omega)]
    simp only [if_true, ite_true, List.nodup_cons, List.not_mem_nil,
      not_false_eq_true, List.nodup_nil, and_true, true_and]
    omega
  · simp only [hy, hx, true_and, and_true, false_and, and_false, if_true,
      if_false, ite_true, ite_false, List.append_nil, List.nil_append,
      List.singleton_append, List.cons_append]
    simp only [List.nodup_cons, List.mem_cons, List.mem_singleton,
      List.not_mem_nil, List.nodup_nil, not_or, and_true, or_false,
      not_false_eq_true]
    rw [minIdx_eq_iff x y x (y - 1) h1 h2 h1 (by omega)]
    omega
  · simp only [hy, hx, true_and, and_true, false_and, and_false, if_true,
      if_false, ite_true, ite_false, List.append_nil, List.nil_append,
      List.singleton_append, List.cons_append, h2]
    simp only [List.nodup_cons, List.mem_cons, List.mem_singleton,
      List.not_mem_nil, List.nodup_nil, not_or, and_true, or_false,
      not_false_eq_true]
    rw [minIdx_eq_iff x y (x - 1) y h1 h2 (by omega) (by omega),
      minIdx_eq_iff x y (x - 1) (y + 1) h1 h2 (by omega) (by omega),
      minIdx_eq_iff (x - 1) y (x - 1) (y + 1) (by omega) h2 (by omega) (by omega)]
    omega
  · simp only [hy, hx, true_and, and_true, false_and, and_false, if_true,
      if_false, ite_true, ite_false, List.append_nil, List.nil_append,
      List.singleton_append, List.cons_append]
    simp

theorem stencil_count (xa ya xb yb : ℕ) (ha1 : xa < 74) (ha2 : ya < 74)
    (hb1 : xb < 74) (hb2 : yb < 74) :
    (stencilCells xa ya).count (grid_idx xb yb)
      = if (xb = xa ∧ yb = ya) ∨ (xb = xa ∧ yb + 1 = ya)
            ∨ (xb + 1 = xa ∧ yb + 1 = ya) ∨ (xb + 1 = xa ∧ yb = ya)
            ∨ (xb + 1 = xa ∧ yb = ya + 1)
        then 1 else 0 := by
  by_cases hmem : grid_idx xb yb ∈ stencilCells xa ya
  · rw [List.count_eq_one_of_mem (stencil_nodup xa ya ha1 ha2) hmem,
      if_pos ((stencil_mem_iff xa ya xb yb ha1 ha2 hb1 hb2).mp hmem)]
  · rw [List.count_eq_zero_of_not_mem hmem,
      if_neg (fun hc => hmem
        ((stencil_mem_iff xa ya xb yb ha1 ha2 hb1 hb2).mpr hc))]

theorem stencil_pair_count (xa ya xb yb : ℕ) (ha1 : xa < 74) (ha2 : ya < 74)
    (hb1 : xb < 74) (hb2 : yb < 74)
    (hadjx : xa ≤ xb + 1 ∧ xb ≤ xa + 1) (hadjy : ya ≤ yb + 1 ∧ yb ≤ ya + 1) :
    (stencilCells xa ya).count (grid_idx xb yb)
        + (stencilCells xb yb).count (grid_idx xa ya)
      = if xa = xb ∧ ya = yb then 2 else 1 := by
  rw [stencil_count xa ya xb yb ha1 ha2 hb1 hb2,
    stencil_count xb yb xa ya hb1 hb2 ha1 ha2]
  split_ifs <;> omega

/-- Scanning particle `a` over the stencil of cell `(x, y)` against freshly
built buckets logs the pair `{a, b}` once per stencil cell equal to `b`'s
bucket. -/
theorem cellScan_countP_fst (ps : List Particle) (a b x y : ℕ) (hab : a ≠ b)
    (hb : b < ps.length) :
    (cellScanLog (buildBuckets ps (List.replicate gridSq [])) a x y).countP
        (pairMatches a b)
      = (stencilCells x y).count (insIdx (ps.getD b default)) := by
  unfold cellScanLog
  rw [List.countP_flatMap]
  simp only [Function.comp_def]
  have hmap : (stencilCells x y).map
        (fun z => (((buildBuckets ps (List.replicate gridSq [])).getD z
            []).flatMap fun j => if a ≠ j then [(a, j)] else []).countP
          (pairMatches a b))
      = (stencilCells x y).map
        (fun z => if insIdx (ps.getD b default) = z then 1 else 0) := by
    apply List.map_congr_left
    intro z hz
    rw [bucketScan_countP_fst a b hab, count_buildBuckets]
    by_cases hins : insIdx (ps.getD b default) = z
    · rw [if_pos ⟨hb, hins, stencil_mem_lt_gridSq hz⟩, if_pos hins]
    · rw [if_neg (fun hc => hins hc.2.1), if_neg hins]
  rw [hmap, count_eq_sum_indicator]

/-- Scanning particle `b` over the stencil of cell `(x, y)` against freshly
built buckets logs the pair `{a, b}` once per stencil cell equal to `a`'s
bucket. -/
theorem cellScan_countP_snd (ps : List Particle) (a b x y : ℕ) (hab : a ≠ b)
    (ha : a < ps.length) :
    (cellScanLog (buildBuckets ps (List.replicate gridSq [])) b x y).countP
        (pairMatches a b)
      = (stencilCells x y).count (insIdx (ps.getD a default)) := by
  unfold cellScanLog
  rw [List.countP_flatMap]
  simp only [Function.comp_def]
  have hmap : (stencilCells x y).map
        (fun z => (((buildBuckets ps (List.replicate gridSq [])).getD z
            []).flatMap fun j => if b ≠ j then [(b, j)] else []).countP
          (pairMatches a b))
      = (stencilCells x y).map
        (fun z => if insIdx (ps.getD a default) = z then 1 else 0) := by
    apply List.map_congr_left
    intro z hz
    rw [bucketScan_countP_snd a b hab, count_buildBuckets]
    by_cases hins : insIdx (ps.getD a default) = z
    · rw [if_pos ⟨ha, hins, stencil_mem_lt_gridSq hz⟩, if_pos hins]
    · rw [if_neg (fun hc => hins hc.2.1), if_neg hins]
  rw [hmap, count_eq_sum_indicator]

theorem grid_pos_pC : grid_pos pC = (0, 0) := grid_pos_00

theorem insIdx_pC : insIdx pC = 0 := insIdx_00

theorem stencilCells_00 : stencilCells 0 0 = [0] := by
  unfold stencilCells
  rw [grid_idx_00]
  simp

/-- The buckets built for the two coincident particles: bucket 0 holds the
indices 0 and 1, in insertion order. -/
theorem bC_getD0 : bC.getD 0 [] = [0, 1] := by
  unfold bC buildBuckets
  rw [show ([pC, pC] : List Particle).enum = [(0, pC), (1, pC)] from rfl,
    List.foldl_cons, List.foldl_cons, List.foldl_nil]
  dsimp only
  rw [insIdx_pC]
  unfold pushBucket
  rw [getD_listModify_self (fun b => b ++ [1]) 0
      (listModify (fun b => b ++ [0]) 0 (List.replicate gridSq [])) []
      (by rw [listModify_length, List.length_replicate]
          have := gridSq_ge_8
          omega),
    getD_listModify_self (fun b => b ++ [0]) 0 (List.replicate gridSq []) []
      (by rw [List.length_replicate]
          have := gridSq_ge_8
          omega),
    getD_replicate_nil]
  rfl

/-- Colliding the coincident particle with itself changes nothing: the
zero-length difference makes every offset vanish in the real model. -/
theorem pC_collide : pC.collide pC = (pC, pC) := by
  have hls : (pC.pos - pC.pos).len_sqr = 0 := by
    unfold pC Particle.new Vec2.len_sqr
    simp only [Vec2.sub_x, Vec2.sub_y, Vec2.new_x, Vec2.new_y]
    norm_num
  unfold Particle.collide
  dsimp only
  rw [hls, if_pos (by norm_num [Particle.R]), Real.sqrt_zero]
  unfold pC Particle.new Vec2.dot
  ext
  all_goals
    simp only [Vec2.add_x, Vec2.add_y, Vec2.sub_x, Vec2.sub_y, Vec2.smul_x,
      Vec2.smul_y, Vec2.div_x, Vec2.div_y, Vec2.new_x, Vec2.new_y,
      Vec2.null_x, Vec2.null_y, div_zero, mul_zero, zero_div, sub_zero,
      add_zero, zero_mul, zero_add, zero_sub, neg_zero]

/-- After the pass's first iteration, the stored particle 1 is still the
untouched coincident particle (the zero-distance collision wrote it back
unchanged). -/
theorem passState1_pC : (passState [pC, pC] bC 1).1.getD 1 default = pC := by
  have h1 : passState [pC, pC] bC 1 = particleStep bC ([pC, pC], []) 0 := by
    rw [show (1 : ℕ) = 0 + 1 from rfl, passState_succ]
    rfl
  rw [h1]
  unfold particleStep
  dsimp only
  rw [show ([pC, pC] : List Particle).getD 0 default = pC from rfl,
    grid_pos_pC]
  dsimp only
  rw [stencilCells_00, List.foldl_cons, List.foldl_nil, bC_getD0]
  unfold collide_bucket
  rw [List.foldl_cons]
  dsimp only
  rw [if_neg (fun h : (0 : ℕ) ≠ 0 => h rfl), List.foldl_cons, List.foldl_nil]
  dsimp only
  rw [if_pos (by decide : (0 : ℕ) ≠ 1),
    show ([pC, pC] : List Particle).getD 1 default = pC from rfl, pC_collide]
  dsimp only
  rw [getD_listModify_ne _ (by decide : (0 : ℕ) ≠ 1),
    getD_listModify_self (fun _ => pC) 1 [pC, pC] default
      (by simp only [List.length_cons, List.length_nil]
          omega)]

/-- The complete ghost log of the pass on the two coincident particles: the
unordered pair `{0, 1}` is tested twice, once in each orientation. -/
theorem testedPairs_pCpC : testedPairs [pC, pC] bC = [(0, 1), (1, 0)] := by
  rw [testedPairs_log,
    show ([pC, pC] : List Particle).length = 2 from rfl,
    show List.range 2 = [0, 1] from rfl,
    List.flatMap_cons, List.flatMap_cons, List.flatMap_nil]
  rw [show (passState [pC, pC] bC 0).1.getD 0 default = pC from rfl,
    passState1_pC, grid_pos_pC]
  dsimp only
  have hscan0 : cellScanLog bC 0 0 0 = [(0, 1)] := by
    unfold cellScanLog
    rw [stencilCells_00, List.flatMap_cons, List.flatMap_nil]
    rw [bC_getD0, List.flatMap_cons, List.flatMap_cons, List.flatMap_nil]
    rw [if_neg (fun h : (0 : ℕ) ≠ 0 => h rfl),
      if_pos (by decide : (0 : ℕ) ≠ 1)]
    rfl
  have hscan1 : cellScanLog bC 1 0 0 = [(1, 0)] := by
    unfold cellScanLog
    rw [stencilCells_00, List.flatMap_cons, List.flatMap_nil]
    rw [bC_getD0, List.flatMap_cons, List.flatMap_cons, List.flatMap_nil]
    rw [if_pos (by decide : (1 : ℕ) ≠ 0),
      if_neg (fun h : (1 : ℕ) ≠ 1 => h rfl)]
    rfl
  rw [hscan0, hscan1]
  rfl

/-- C3 (corrected): within one sub-step's particle-collision pass over
freshly filled buckets, an unordered pair of distinct particles whose cells
lie in the grid interior, are the same or adjacent, and are kept by each
particle's working copy at the moment it is scanned, is tested exactly once
when the two cells differ — but exactly twice (once in each orientation)
when the two particles share a cell. -/
theorem collide_pass_pair_count (ps : List Particle) (a b : ℕ)
    (hab : a ≠ b) (ha : a < ps.length) (hb : b < ps.length)
    (ha1 : (grid_pos (ps.getD a default)).1 < gridN)
    (ha2 : (grid_pos (ps.getD a default)).2 < gridN)
    (hb1 : (grid_pos (ps.getD b default)).1 < gridN)
    (hb2 : (grid_pos (ps.getD b default)).2 < gridN)
    (hadjx : (grid_pos (ps.getD a default)).1
          ≤ (grid_pos (ps.getD b default)).1 + 1
        ∧ (grid_pos (ps.getD b default)).1
          ≤ (grid_pos (ps.getD a default)).1 + 1)
    (hadjy : (grid_pos (ps.getD a default)).2
          ≤ (grid_pos (ps.getD b default)).2 + 1
        ∧ (grid_pos (ps.getD b default)).2
          ≤ (grid_pos (ps.getD a default)).2 + 1)
    (hstable : ∀ i, i < ps.length →
      grid_pos ((passState ps (buildBuckets ps
          (List.replicate gridSq [])) i).1.getD i default)
        = grid_pos (ps.getD i default)) :
    (testedPairs ps (buildBuckets ps (List.replicate gridSq []))).countP
        (pairMatches a b)
      = if grid_pos (ps.getD a default) = grid_pos (ps.getD b default)
        then 2 else 1 := by
  have hsum := sum_range_two_support ps.length a b
    (fun i => (cellScanLog (buildBuckets ps (List.replicate gridSq [])) i
        (grid_pos ((passState ps (buildBuckets ps
          (List.replicate gridSq [])) i).1.getD i default)).1
        (grid_pos ((passState ps (buildBuckets ps
          (List.replicate gridSq [])) i).1.getD i default)).2).countP
      (pairMatches a b))
    ha hb hab
    (fun i hi hia hib =>
      countP_cellScanLog_other (buildBuckets ps (List.replicate gridSq []))
        i _ _ a b hia hib)
  rw [testedPairs_log, List.countP_flatMap]
  simp only [Function.comp_def]
  rw [hsum]
  dsimp only
  rw [hstable a ha, hstable b hb,
    cellScan_countP_fst ps a b _ _ hab hb,
    cellScan_countP_snd ps a b _ _ hab ha]
  unfold insIdx
  rw [gridN_eq] at ha1 ha2 hb1 hb2
  rw [stencil_pair_count _ _ _ _ ha1 ha2 hb1 hb2 hadjx hadjy]
  by_cases hcell : grid_pos (ps.getD a default) = grid_pos (ps.getD b default)
  · rw [if_pos (Prod.ext_iff.mp hcell), if_pos hcell]
  · rw [if_neg (fun hc => hcell (Prod.ext_iff.mpr hc)), if_neg hcell]

/-- C3, counterexample to the claim as stated: two coincident particles
share the cell `(0, 0)`, yet the pass tests the unordered pair `{0, 1}`
twice — as `(0, 1)` while scanning particle 0 and as `(1, 0)` while scanning
particle 1 — because the shared bucket sits in both particles' stencils. -/
theorem collide_pass_same_cell_counterexample :
    grid_pos ([pC, pC].getD 0 default) = grid_pos ([pC, pC].getD 1 default) ∧
    (testedPairs [pC, pC] bC).countP (pairMatches 0 1) = 2 := by
  refine ⟨rfl, ?_⟩
  rw [testedPairs_pCpC]
  rfl

/-- Witness for `collide_pass_pair_count` at the coincident pair: the two
particles share a cell, and the pair is tested `2` times. -/
theorem collide_pass_pair_count_witness :
    (testedPairs [pC, pC]
        (buildBuckets [pC, pC] (List.replicate gridSq []))).countP
        (pairMatches 0 1)
      = if grid_pos ([pC, pC].getD 0 default)
          = grid_pos ([pC, pC].getD 1 default)
        then 2 else 1 :=
  collide_pass_pair_count [pC, pC] 0 1 (by decide)
    (by simp only [List.length_cons, List.length_nil]; omega)
    (by simp only [List.length_cons, List.length_nil]; omega)
    (by rw [show ([pC, pC] : List Particle).getD 0 default = pC from rfl,
          grid_pos_pC, gridN_eq]
        decide)
    (by rw [show ([pC, pC] : List Particle).getD 0 default = pC from rfl,
          grid_pos_pC, gridN_eq]
        decide)
    (by rw [show ([pC, pC] : List Particle).getD 1 default = pC from rfl,
          grid_pos_pC, gridN_eq]
        decide)
    (by rw [show ([pC, pC] : List Particle).getD 1 default = pC from rfl,
          grid_pos_pC, gridN_eq]
        decide)
    (by rw [show ([pC, pC] : List Particle).getD 0 default = pC from rfl,
          show ([pC, pC] : List Particle).getD 1 default = pC from rfl,
          grid_pos_pC]
        exact ⟨Nat.le_succ 0, Nat.le_succ 0⟩)
    (by rw [show ([pC, pC] : List Particle).getD 0 default = pC from rfl,
          show ([pC, pC] : List Particle).getD 1 default = pC from rfl,
          grid_pos_pC]
        exact ⟨Nat.le_succ 0, Nat.le_succ 0⟩)
    (by intro i hi
        rcases i with _ | i
        · rfl
        · rcases i with _ | i
          · rw [show buildBuckets [pC, pC] (List.replicate gridSq []) = bC
                from rfl, passState1_pC]
            rfl
          · exfalso
            have h2 : i + 2 < 2 := hi
            omega)

end

end Soft
